import Mathlib

/-!
Shallow embedding of the pycgol core (state/engine subsystem) and proofs of
the specification's claims about it.

Source files embedded:
- src/pycgol/state/_state.py         (DenseState)
- src/pycgol/state/_sparse_state.py  (SparseState)
- src/pycgol/_state.py               (legacy State: line-for-line the dense
  constructor/getitem/setitem of DenseState, without get_live_cells)
- src/pycgol/engines/_loop_engine.py
- src/pycgol/engines/_numpy_engine.py
- src/pycgol/engines/_sparse_engine.py
- src/pycgol/engines/_engine.py      (optimize_state)
- src/pycgol/engines/_engine_registry.py

Modelling conventions:
- Python ints are Lean Int (coordinates may be negative); lengths are
  coerced to Int where Python's len appears in comparisons.
- Python exceptions are modelled by an Except over a structured error type
  whose constructors carry exactly the data interpolated into the Python
  exception messages.
- A Python set of coordinates is modelled by a duplicate-free list: add
  appends when absent, discard erases.  Python set iteration order is
  unspecified; the model iterates in list order, and every result proved
  below is independent of that order.
-/

namespace Pycgol

abbrev Coord := Int × Int

/-- Structured model of the exceptions raised by the embedded code.
Each constructor carries the data that the corresponding Python message
interpolates, so distinct failure causes are distinct values. -/
inductive Err where
  /-- ValueError "Grid cannot be empty, neither height nor width can be zero or less." -/
  | emptyGrid : Err
  /-- ValueError "(x, y) is outside the bounds (width, height)." from _validate_bounds -/
  | boundsError (x y width height : Int) : Err
  /-- ValueError "(x, y) is outside of the bounds (width, height)" from LoopEngine._neighbours -/
  | neighbourBounds (x y width height : Int) : Err
  /-- ValueError "Engine 'name' is already registered" -/
  | alreadyRegistered (name : String) : Err
  /-- KeyError "No engine registered with name 'name'" -/
  | notRegistered (name : String) : Err
  /-- RuntimeError "No engines registered" -/
  | noEnginesRegistered : Err
  /-- RuntimeError "Cannot unregister the only remaining engine" -/
  | onlyRemainingEngine : Err
  /-- bare KeyError from a raw dict lookup -/
  | dictKeyError (name : String) : Err
deriving DecidableEq

instance exceptDecEq {α β : Type} [DecidableEq α] [DecidableEq β] :
    DecidableEq (Except α β) := fun a b =>
  match a, b with
  | .error e, .error f =>
    if h : e = f then isTrue (by rw [h]) else isFalse (by simp [h])
  | .ok x, .ok y =>
    if h : x = y then isTrue (by rw [h]) else isFalse (by simp [h])
  | .error _, .ok _ => isFalse (by simp)
  | .ok _, .error _ => isFalse (by simp)

/-- Python set.add on the coordinate-list model of a set. -/
def pyAdd (l : List Coord) (c : Coord) : List Coord :=
  if c ∈ l then l else l ++ [c]

/-- Python set.discard on the coordinate-list model of a set. -/
def pyDiscard (l : List Coord) (c : Coord) : List Coord :=
  l.erase c

/-- DenseState from src/pycgol/state/_state.py: a 2D list of booleans,
row-major (cells[y][x]).  The legacy pycgol._state.State used by
LoopEngine has the identical constructor, width, height, getitem and
setitem bodies, so it is embedded by this same structure. -/
structure DenseState where
  cells : List (List Bool)
deriving DecidableEq

namespace DenseState

/-- DenseState.__init__: validates dimensions then builds height rows of
width dead cells. -/
def make (width height : Int) : Except Err DenseState :=
  if width ≤ 0 ∨ height ≤ 0 then .error .emptyGrid
  else .ok ⟨List.replicate height.toNat (List.replicate width.toNat false)⟩

/-- DenseState.width: len(self._cells[0]). -/
def width (s : DenseState) : Int := ((s.cells.headD []).length : Int)

/-- DenseState.height: len(self._cells). -/
def height (s : DenseState) : Int := (s.cells.length : Int)

/-- DenseState._validate_bounds. -/
def validate_bounds (s : DenseState) (index : Coord) : Except Err Unit :=
  if 0 ≤ index.1 ∧ index.1 < s.width ∧ 0 ≤ index.2 ∧ index.2 < s.height then .ok ()
  else .error (.boundsError index.1 index.2 s.width s.height)

/-- The raw cell lookup self._cells[y][x] (defined for in-bounds indices
of well-formed states; out of that range it defaults to false). -/
def cellAt (s : DenseState) (index : Coord) : Bool :=
  (s.cells.getD index.2.toNat []).getD index.1.toNat false

/-- DenseState.__getitem__. -/
def getItem (s : DenseState) (index : Coord) : Except Err Bool := do
  s.validate_bounds index
  return s.cellAt index

/-- The raw update self._cells[y][x] = value. -/
def setPure (s : DenseState) (index : Coord) (value : Bool) : DenseState :=
  ⟨s.cells.set index.2.toNat ((s.cells.getD index.2.toNat []).set index.1.toNat value)⟩

/-- DenseState.__setitem__ (returning the updated object). -/
def setItem (s : DenseState) (index : Coord) (value : Bool) : Except Err DenseState := do
  s.validate_bounds index
  return s.setPure index value

/-- DenseState.get_live_cells: scans the grid row by row collecting live
coordinates.  Python accumulates them into a set; the scan visits each
coordinate once, so the list below has no duplicates. -/
def get_live_cells (s : DenseState) : List Coord :=
  (List.range s.height.toNat).flatMap (fun y =>
    (List.range s.width.toNat).filterMap (fun x =>
      if (s.cells.getD y []).getD x false then some ((x : Int), (y : Int)) else none))

/-- Well-formedness of a dense state as produced by the constructor:
positive dimensions and rectangular rows. -/
def Valid (s : DenseState) : Prop :=
  0 < s.width ∧ 0 < s.height ∧ ∀ row ∈ s.cells, (row.length : Int) = s.width

instance (s : DenseState) : Decidable s.Valid := by
  unfold Valid; infer_instance

end DenseState

/-- SparseState from src/pycgol/state/_sparse_state.py: stored width and
height plus the set of live coordinates (modelled as a duplicate-free
list). -/
structure SparseState where
  width : Int
  height : Int
  live_cells : List Coord
deriving DecidableEq

namespace SparseState

/-- SparseState.__init__. -/
def make (width height : Int) : Except Err SparseState :=
  if width ≤ 0 ∨ height ≤ 0 then .error .emptyGrid
  else .ok ⟨width, height, []⟩

/-- SparseState._validate_bounds. -/
def validate_bounds (s : SparseState) (index : Coord) : Except Err Unit :=
  if 0 ≤ index.1 ∧ index.1 < s.width ∧ 0 ≤ index.2 ∧ index.2 < s.height then .ok ()
  else .error (.boundsError index.1 index.2 s.width s.height)

/-- SparseState.__getitem__: bounds check, then set membership. -/
def getItem (s : SparseState) (index : Coord) : Except Err Bool := do
  s.validate_bounds index
  return decide (index ∈ s.live_cells)

/-- The raw mutation body of __setitem__: add or discard. -/
def setPure (s : SparseState) (index : Coord) (value : Bool) : SparseState :=
  ⟨s.width, s.height, if value then pyAdd s.live_cells index else pyDiscard s.live_cells index⟩

/-- SparseState.__setitem__ (returning the updated object). -/
def setItem (s : SparseState) (index : Coord) (value : Bool) : Except Err SparseState := do
  s.validate_bounds index
  return s.setPure index value

/-- SparseState.get_live_cells: returns a copy of the internal set. -/
def get_live_cells (s : SparseState) : List Coord := s.live_cells

/-- Well-formedness of a sparse state: positive dimensions, every stored
live cell within bounds, and set semantics (no duplicates). -/
def Valid (s : SparseState) : Prop :=
  0 < s.width ∧ 0 < s.height ∧
    (∀ c ∈ s.live_cells, 0 ≤ c.1 ∧ c.1 < s.width ∧ 0 ≤ c.2 ∧ c.2 < s.height) ∧
    s.live_cells.Nodup

instance (s : SparseState) : Decidable s.Valid := by
  unfold Valid; infer_instance

end SparseState

/-- A value of the abstract StateInterface: exactly the two concrete
representations (closed world, per the spec's design note). -/
inductive AState where
  | dense (s : DenseState)
  | sparse (s : SparseState)
deriving DecidableEq

namespace AState

def width : AState → Int
  | .dense s => s.width
  | .sparse s => s.width

def height : AState → Int
  | .dense s => s.height
  | .sparse s => s.height

def getItem : AState → Coord → Except Err Bool
  | .dense s, c => s.getItem c
  | .sparse s, c => s.getItem c

def get_live_cells : AState → List Coord
  | .dense s => s.get_live_cells
  | .sparse s => s.get_live_cells

def Valid : AState → Prop
  | .dense s => s.Valid
  | .sparse s => s.Valid

instance (s : AState) : Decidable s.Valid := by
  cases s <;> (unfold Valid; infer_instance)

/-- The logical aliveness of a cell, read off the backing store
(meaningful at in-bounds coordinates of valid states). -/
def alive : AState → Coord → Bool
  | .dense s, c => s.cellAt c
  | .sparse s, c => decide (c ∈ s.live_cells)

def setItem : AState → Coord → Bool → Except Err AState
  | .dense s, c, v => (s.setItem c v).map AState.dense
  | .sparse s, c, v => (s.setItem c v).map AState.sparse

end AState

/-- Shared bounds predicate used in specifications and theorem statements:
the coordinate lies in the grid rectangle. -/
def inGrid (width height : Int) (c : Coord) : Prop :=
  0 ≤ c.1 ∧ c.1 < width ∧ 0 ≤ c.2 ∧ c.2 < height

instance (width height : Int) (c : Coord) : Decidable (inGrid width height c) := by
  unfold inGrid; infer_instance

/-- All in-bounds coordinates in row-major order: the visit order of the
nested for-loops of the dense engines. -/
def coordList (width height : Int) : List Coord :=
  (List.range height.toNat).flatMap (fun (y : Nat) =>
    (List.range width.toNat).map (fun (x : Nat) => ((x : Int), (y : Int))))

/-- DenseState.from_state: builds a fresh dense grid of the source's
dimensions, then stamps each of the source's live cells.  Both concrete
StateInterface variants provide get_live_cells, so hasattr picks the
efficient branch; the full-grid fallback is dead code here. -/
def DenseState.from_state (other : AState) : Except Err DenseState := do
  let new ← DenseState.make other.width other.height
  other.get_live_cells.foldlM (fun st c => st.setItem c true) new

/-- SparseState.from_state: same shape as the dense conversion. -/
def SparseState.from_state (other : AState) : Except Err SparseState := do
  let new ← SparseState.make other.width other.height
  other.get_live_cells.foldlM (fun st c => st.setItem c true) new

/-- The two concrete state representations an engine can prefer. -/
inductive StateKind where
  | dense
  | sparse
deriving DecidableEq

/-- Engine.optimize_state from src/pycgol/engines/_engine.py: return the
state unchanged when there is no preference or the representation already
matches, otherwise convert via the preferred type's from_state. -/
def optimize_state (preferred : Option StateKind) (state : AState) : Except Err AState :=
  match preferred, state with
  | none, _ => .ok state
  | some .dense, .dense _ => .ok state
  | some .dense, _ => (DenseState.from_state state).map AState.dense
  | some .sparse, .sparse _ => .ok state
  | some .sparse, _ => (SparseState.from_state state).map AState.sparse

namespace LoopEngine

/-- LoopEngine._neighbours: validates the cell, then returns the eight
Moore offsets clipped to the grid. -/
def neighbours (cell : Coord) (width height : Int) : Except Err (List Coord) :=
  if cell.1 < 0 ∨ cell.1 ≥ width ∨ cell.2 < 0 ∨ cell.2 ≥ height then
    .error (.neighbourBounds cell.1 cell.2 width height)
  else
    .ok (([(cell.1 - 1, cell.2 - 1), (cell.1, cell.2 - 1), (cell.1 + 1, cell.2 - 1),
           (cell.1 - 1, cell.2), (cell.1 + 1, cell.2),
           (cell.1 - 1, cell.2 + 1), (cell.1, cell.2 + 1), (cell.1 + 1, cell.2 + 1)] :
        List Coord).filter (fun c => decide (inGrid width height c)))

/-- LoopEngine._alive_neighbours: Python sums a list of booleans, which
counts the True entries. -/
def alive_neighbours (cell : Coord) (state : AState) : Except Err Nat := do
  let ns ← neighbours cell state.width state.height
  let vals ← ns.mapM (fun c => state.getItem c)
  return vals.count true

/-- LoopEngine._next_cell_state. -/
def next_cell_state (cell : Coord) (state : AState) : Except Err Bool := do
  let an ← alive_neighbours cell state
  let alive ← state.getItem cell
  if alive then
    if an < 2 ∨ an > 3 then return false else return true
  else
    if an = 3 then return true else return false

/-- LoopEngine.next_state: builds a fresh grid (the legacy
pycgol._state.State, embedded by DenseState) and fills every cell from
the input generation. -/
def next_state (state : AState) : Except Err AState := do
  let init ← DenseState.make state.width state.height
  let result ← (List.range state.height.toNat).foldlM (fun acc (y : Nat) =>
    (List.range state.width.toNat).foldlM (fun acc2 (x : Nat) => do
      let v ← next_cell_state ((x : Int), (y : Int)) state
      acc2.setItem ((x : Int), (y : Int)) v) acc) init
  return AState.dense result

end LoopEngine

namespace NumpyEngine

/-- The 3x3 convolution kernel (ones with a zero centre). -/
def kernel : List (List Int) := [[1, 1, 1], [1, 0, 1], [1, 1, 1]]

/-- Zero-padded matrix access, the effect of boundary="fill" with fill
value 0 in scipy.signal.convolve2d. -/
def padAt (g : List (List Int)) (y x : Int) : Int :=
  if 0 ≤ y ∧ y < (g.length : Int) ∧ 0 ≤ x ∧ x < ((g.headD []).length : Int) then
    (g.getD y.toNat []).getD x.toNat 0
  else 0

/-- scipy.signal.convolve2d with mode="same" and zero fill, specialised
to a 3x3 kernel: true 2D convolution, so the kernel is flipped and the
output entry (i, j) is the sum over kernel positions (a, b) of
k[a][b] * g[i + 1 - a][j + 1 - b].  The source computes this in int8;
all grid entries are 0/1 and the kernel sums to 8, so no value exceeds
8 and plain integer arithmetic is bit-exact. -/
def convolve2d_same (g k : List (List Int)) : List (List Int) :=
  (List.range g.length).map (fun (i : Nat) =>
    (List.range (g.headD []).length).map (fun (j : Nat) =>
      ((List.range 3).flatMap (fun (a : Nat) =>
        (List.range 3).map (fun (b : Nat) =>
          (k.getD a []).getD b 0 * padAt g ((i : Int) - (a : Int) + 1) ((j : Int) - (b : Int) + 1)))).sum))

/-- The pure value of the 0/1 matrix the engine builds from a dense
state (the grid variable of next_state, used by the proofs below). -/
def gridOf (d : DenseState) : List (List Int) :=
  (List.range d.height.toNat).map (fun (y : Nat) =>
    (List.range d.width.toNat).map (fun (x : Nat) =>
      if d.cellAt ((x : Int), (y : Int)) then (1 : Int) else 0))

/-- The pure value of the boolean rule matrix (the next_grid variable of
next_state, used by the proofs below). -/
def next_gridOf (d : DenseState) : List (List Bool) :=
  (List.range d.height.toNat).map (fun (y : Nat) =>
    (List.range d.width.toNat).map (fun (x : Nat) =>
      decide (((((gridOf d).getD y []).getD x 0) = 1 ∧
          (((convolve2d_same (gridOf d) kernel).getD y []).getD x 0 = 2 ∨
            ((convolve2d_same (gridOf d) kernel).getD y []).getD x 0 = 3)) ∨
        ((((gridOf d).getD y []).getD x 0) = 0 ∧
          ((convolve2d_same (gridOf d) kernel).getD y []).getD x 0 = 3))))

/-- NumpyEngine.next_state: convert to the preferred dense representation,
build the 0/1 matrix, convolve to count neighbours, apply the vectorised
rule, and copy the boolean result into a fresh DenseState. -/
def next_state (state : AState) : Except Err AState := do
  let state ← optimize_state (some .dense) state
  let grid ← (List.range state.height.toNat).mapM (fun (y : Nat) =>
    (List.range state.width.toNat).mapM (fun (x : Nat) =>
      (state.getItem ((x : Int), (y : Int))).map (fun b => if b then (1 : Int) else 0)))
  let neighbor_count := convolve2d_same grid kernel
  let next_grid := (List.range state.height.toNat).map (fun y =>
    (List.range state.width.toNat).map (fun x =>
      let g := (grid.getD y []).getD x 0
      let nc := (neighbor_count.getD y []).getD x 0
      decide ((g = 1 ∧ (nc = 2 ∨ nc = 3)) ∨ (g = 0 ∧ nc = 3))))
  let init ← DenseState.make state.width state.height
  let result ← (List.range state.height.toNat).foldlM (fun acc (y : Nat) =>
    (List.range state.width.toNat).foldlM (fun acc2 (x : Nat) =>
      acc2.setItem ((x : Int), (y : Int)) ((next_grid.getD y []).getD x false)) acc) init
  return AState.dense result

end NumpyEngine

namespace SparseEngine

/-- The 8 neighbour offsets in the order of the source's nested dx/dy
loops with the (0, 0) pair skipped. -/
def deltas : List (Int × Int) :=
  (([-1, 0, 1] : List Int).flatMap (fun dx =>
    ([-1, 0, 1] : List Int).map (fun dy => (dx, dy)))).filter
    (fun d => !(d.1 == 0 && d.2 == 0))

/-- The candidate set: every live cell plus its in-bounds neighbours,
accumulated in Python-set fashion. -/
def cells_to_check (live : List Coord) (width height : Int) : List Coord :=
  live.foldl (fun acc c =>
    let acc := pyAdd acc c
    deltas.foldl (fun acc2 d =>
      let n : Coord := (c.1 + d.1, c.2 + d.2)
      if inGrid width height n then pyAdd acc2 n else acc2) acc) []

/-- SparseEngine.next_state: convert to the preferred sparse
representation, then apply the rule to each candidate cell, counting
neighbours by unclipped membership tests against the live-cell set (the
source's inner dx/dy counting loop is the countP below), and writing only
live results. -/
def next_state (state : AState) : Except Err AState := do
  let state ← optimize_state (some .sparse) state
  let live_cells := state.get_live_cells
  let ctc := cells_to_check live_cells state.width state.height
  let init ← SparseState.make state.width state.height
  let result ← ctc.foldlM (fun st c => do
    let neighbors := deltas.countP (fun d => decide ((c.1 + d.1, c.2 + d.2) ∈ live_cells))
    let is_alive := decide (c ∈ live_cells)
    if is_alive then
      if neighbors = 2 ∨ neighbors = 3 then st.setItem c true else pure st
    else
      if neighbors = 3 then st.setItem c true else pure st) init
  return AState.sparse result

end SparseEngine

namespace Spec

/-- Specification-side definition (spec section 4.2): the eight Moore
neighbourhood offsets. -/
def mooreDeltas : List (Int × Int) :=
  [(-1, -1), (0, -1), (1, -1), (-1, 0), (1, 0), (-1, 1), (0, 1), (1, 1)]

/-- Specification-side definition: the number of alive Moore neighbours
of a cell, with neighbours outside the grid excluded from the count. -/
def neighbourCount (s : AState) (c : Coord) : Nat :=
  mooreDeltas.countP (fun d =>
    decide (inGrid s.width s.height (c.1 + d.1, c.2 + d.2)) &&
      s.alive (c.1 + d.1, c.2 + d.2))

/-- Specification-side definition: Conway's rule for one cell, computed
from the input generation. -/
def nextAlive (s : AState) (c : Coord) : Bool :=
  if s.alive c then decide (neighbourCount s c = 2 ∨ neighbourCount s c = 3)
  else decide (neighbourCount s c = 3)

end Spec

/-- The engine classes stored by the registry.  register's issubclass
check always passes for values of this type, mirroring the declared
type[Engine] of the source. -/
inductive EngineClass where
  | loop
  | numpy
  | sparse
deriving DecidableEq

/-- EngineRegistry from src/pycgol/engines/_engine_registry.py: an
insertion-ordered dict (association list) plus the current default name.
Mutating operations return an Except Err Unit paired with the registry
after the call; every raise in the source happens before any mutation,
so failing calls return the receiver unchanged. -/
structure EngineRegistry where
  engines : List (String × EngineClass)
  default_engine : Option String
deriving DecidableEq

namespace EngineRegistry

/-- EngineRegistry.__init__. -/
def init : EngineRegistry := ⟨[], none⟩

/-- The dict keys, in insertion order. -/
def keys (r : EngineRegistry) : List String := r.engines.map Prod.fst

/-- EngineRegistry.register. -/
def register (r : EngineRegistry) (name : String) (engine_class : EngineClass)
    (is_default : Bool) : Except Err Unit × EngineRegistry :=
  if name ∈ r.keys then (.error (.alreadyRegistered name), r)
  else
    let engines := r.engines ++ [(name, engine_class)]
    if is_default = true ∨ r.default_engine = none then (.ok (), ⟨engines, some name⟩)
    else (.ok (), ⟨engines, r.default_engine⟩)

/-- EngineRegistry.get. -/
def get (r : EngineRegistry) (name : String) : Except Err EngineClass :=
  if name ∈ r.keys then
    match r.engines.find? (fun p => p.1 == name) with
    | some p => .ok p.2
    | none => .error (.dictKeyError name)
  else .error (.notRegistered name)

/-- EngineRegistry.get_default. -/
def get_default (r : EngineRegistry) : Except Err EngineClass :=
  match r.default_engine with
  | none => .error .noEnginesRegistered
  | some n =>
    match r.engines.find? (fun p => p.1 == n) with
    | some p => .ok p.2
    | none => .error (.dictKeyError n)

/-- EngineRegistry.set_default. -/
def set_default (r : EngineRegistry) (name : String) : Except Err Unit × EngineRegistry :=
  if name ∈ r.keys then (.ok (), ⟨r.engines, some name⟩)
  else (.error (.notRegistered name), r)

/-- EngineRegistry.list_engines. -/
def list_engines (r : EngineRegistry) : List String := r.keys

/-- EngineRegistry.get_default_name. -/
def get_default_name (r : EngineRegistry) : Option String := r.default_engine

/-- EngineRegistry.is_registered. -/
def is_registered (r : EngineRegistry) (name : String) : Bool := name ∈ r.keys

/-- EngineRegistry.unregister.  After del, Python picks the new default
as next(iter(keys)), the oldest remaining key; the remaining dict is
nonempty here, so head? is always some. -/
def unregister (r : EngineRegistry) (name : String) : Except Err Unit × EngineRegistry :=
  if name ∈ r.keys then
    if r.engines.length = 1 then (.error .onlyRemainingEngine, r)
    else
      let engines := r.engines.eraseP (fun p => p.1 == name)
      let default_engine :=
        if r.default_engine = some name then engines.head?.map Prod.fst
        else r.default_engine
      (.ok (), ⟨engines, default_engine⟩)
  else (.error (.notRegistered name), r)

/-- EngineRegistry.clear. -/
def clear (_ : EngineRegistry) : EngineRegistry := ⟨[], none⟩

/-- Registry states reachable from the empty registry by any sequence of
register, set_default, unregister and clear calls (failing calls leave
the registry unchanged, so using the second component covers both
outcomes). -/
inductive Reachable : EngineRegistry → Prop where
  | init : Reachable EngineRegistry.init
  | register (r : EngineRegistry) (name : String) (e : EngineClass) (d : Bool) :
      Reachable r → Reachable (r.register name e d).2
  | set_default (r : EngineRegistry) (name : String) :
      Reachable r → Reachable (r.set_default name).2
  | unregister (r : EngineRegistry) (name : String) :
      Reachable r → Reachable (r.unregister name).2
  | clear (r : EngineRegistry) : Reachable r → Reachable r.clear

end EngineRegistry

/-- Sparse states reachable through the constructor, __setitem__ and
from_state (the operations named by the claim about the sparse
invariant). -/
inductive SparseReachable : SparseState → Prop where
  | make (w h : Int) (s : SparseState) :
      SparseState.make w h = .ok s → SparseReachable s
  | set (s : SparseState) (c : Coord) (v : Bool) (s2 : SparseState) :
      SparseReachable s → s.setItem c v = .ok s2 → SparseReachable s2
  | from_state (x : AState) (s : SparseState) :
      SparseState.from_state x = .ok s → SparseReachable s

/-- The blinker start state of the spec's literal scenario: a 5x5 dense
grid with live cells (1,2), (2,2), (3,2), built through the public
constructor and setitem API. -/
def blinker0 : Except Err AState := do
  let s ← DenseState.make 5 5
  let s ← s.setItem (1, 2) true
  let s ← s.setItem (2, 2) true
  let s ← s.setItem (3, 2) true
  return AState.dense s

/-!
### Threaded engine variants

Re-translation of the engines with the input object's state passed
explicitly through every operation the engine applies to it, so that the
absence of input mutation is a provable statement rather than a
modelling assumption.  The leaf reads return the receiver unchanged
because their source bodies (the getitem and get_live_cells methods)
contain no assignment to self; everything above the leaves threads the
object state exactly as the engine source uses it.
-/

/-- __getitem__ in object-state-passing style: the call's result paired
with the receiver's state after the call. -/
def AState.getItemT (s : AState) (index : Coord) : Except Err (Bool × AState) :=
  (s.getItem index).map (fun b => (b, s))

/-- get_live_cells in object-state-passing style. -/
def AState.get_live_cellsT (s : AState) : List Coord × AState :=
  (s.get_live_cells, s)

/-- DenseState.from_state, threading the source object. -/
def DenseState.from_stateT (other : AState) : Except Err (DenseState × AState) := do
  let new ← DenseState.make other.width other.height
  let p := other.get_live_cellsT
  let result ← p.1.foldlM (fun st c => st.setItem c true) new
  return (result, p.2)

/-- SparseState.from_state, threading the source object. -/
def SparseState.from_stateT (other : AState) : Except Err (SparseState × AState) := do
  let new ← SparseState.make other.width other.height
  let p := other.get_live_cellsT
  let result ← p.1.foldlM (fun st c => st.setItem c true) new
  return (result, p.2)

namespace LoopEngine

/-- _alive_neighbours, threading the state through each getitem of the
list comprehension. -/
def alive_neighboursT (cell : Coord) (state : AState) : Except Err (Nat × AState) := do
  let ns ← neighbours cell state.width state.height
  let r ← ns.foldlM (fun (acc : List Bool × AState) c => do
    let (b, st) ← acc.2.getItemT c
    return (acc.1 ++ [b], st)) (([] : List Bool), state)
  return (r.1.count true, r.2)

/-- _next_cell_state, threading the state. -/
def next_cell_stateT (cell : Coord) (state : AState) : Except Err (Bool × AState) := do
  let (an, state) ← alive_neighboursT cell state
  let (alive, state) ← state.getItemT cell
  if alive then
    if an < 2 ∨ an > 3 then return (false, state) else return (true, state)
  else
    if an = 3 then return (true, state) else return (false, state)

/-- next_state, threading the input state; returns the input object's
final state alongside the produced state. -/
def next_stateT (state : AState) : Except Err (AState × AState) := do
  let init ← DenseState.make state.width state.height
  let r ← (List.range state.height.toNat).foldlM
    (fun (acc : AState × DenseState) (y : Nat) =>
      (List.range state.width.toNat).foldlM
        (fun (acc2 : AState × DenseState) (x : Nat) => do
          let (v, st) ← next_cell_stateT ((x : Int), (y : Int)) acc2.1
          let next ← acc2.2.setItem ((x : Int), (y : Int)) v
          return (st, next)) acc) (state, init)
  return (r.1, AState.dense r.2)

end LoopEngine

namespace NumpyEngine

/-- The engine body after the state is in its preferred dense
representation, threading the state through the grid-building reads. -/
def bodyT (state : AState) : Except Err (AState × AState) := do
  let r ← (List.range state.height.toNat).foldlM
    (fun (acc : List (List Int) × AState) (y : Nat) => do
      let row ← (List.range state.width.toNat).foldlM
        (fun (acc2 : List Int × AState) (x : Nat) => do
          let (b, st) ← acc2.2.getItemT ((x : Int), (y : Int))
          return (acc2.1 ++ [if b then (1 : Int) else 0], st))
        (([] : List Int), acc.2)
      return (acc.1 ++ [row.1], row.2))
    (([] : List (List Int)), state)
  let grid := r.1
  let stateF := r.2
  let neighbor_count := convolve2d_same grid kernel
  let next_grid := (List.range state.height.toNat).map (fun (y : Nat) =>
    (List.range state.width.toNat).map (fun (x : Nat) =>
      decide ((((grid.getD y []).getD x 0) = 1 ∧
          ((neighbor_count.getD y []).getD x 0 = 2 ∨
            (neighbor_count.getD y []).getD x 0 = 3)) ∨
        (((grid.getD y []).getD x 0) = 0 ∧
          (neighbor_count.getD y []).getD x 0 = 3))))
  let init ← DenseState.make state.width state.height
  let result ← (List.range state.height.toNat).foldlM (fun acc (y : Nat) =>
    (List.range state.width.toNat).foldlM (fun acc2 (x : Nat) =>
      acc2.setItem ((x : Int), (y : Int)) ((next_grid.getD y []).getD x false)) acc) init
  return (stateF, AState.dense result)

/-- next_state, threading the input.  A dense input is used in place
(optimize_state aliases it), so the body's threading is the input's;
a sparse input is only read during the conversion. -/
def next_stateT (state : AState) : Except Err (AState × AState) :=
  match state with
  | .dense _ => bodyT state
  | .sparse _ => do
    let conv ← DenseState.from_stateT state
    let r ← bodyT (.dense conv.1)
    return (conv.2, r.2)

end NumpyEngine

namespace SparseEngine

/-- The engine body after the state is in its preferred sparse
representation, threading the single get_live_cells read. -/
def bodyT (state : AState) : Except Err (AState × AState) := do
  let p := state.get_live_cellsT
  let live_cells := p.1
  let stateF := p.2
  let ctc := cells_to_check live_cells state.width state.height
  let init ← SparseState.make state.width state.height
  let result ← ctc.foldlM (fun st c => do
    let neighbors := deltas.countP (fun d => decide ((c.1 + d.1, c.2 + d.2) ∈ live_cells))
    let is_alive := decide (c ∈ live_cells)
    if is_alive then
      if neighbors = 2 ∨ neighbors = 3 then st.setItem c true else pure st
    else
      if neighbors = 3 then st.setItem c true else pure st) init
  return (stateF, AState.sparse result)

/-- next_state, threading the input. -/
def next_stateT (state : AState) : Except Err (AState × AState) :=
  match state with
  | .sparse _ => bodyT state
  | .dense _ => do
    let conv ← SparseState.from_stateT state
    let r ← bodyT (.sparse conv.1)
    return (conv.2, r.2)

end SparseEngine

/-! ### Basic lemmas about the embedded operations -/

theorem epure_ok {α : Type} (a : α) : (pure a : Except Err α) = .ok a := rfl

theorem ebind_ok {α β : Type} (a : α) (f : α → Except Err β) :
    (Except.ok a >>= f : Except Err β) = f a := rfl

theorem ebind_err {α β : Type} (e : Err) (f : α → Except Err β) :
    ((Except.error e : Except Err α) >>= f : Except Err β) = .error e := rfl

theorem emap_ok {α β : Type} (a : α) (f : α → β) :
    ((Except.ok a : Except Err α).map f) = .ok (f a) := rfl

theorem emap_err {α β : Type} (e : Err) (f : α → β) :
    ((Except.error e : Except Err α).map f) = .error e := rfl

theorem getD_replicate {α : Type} (n : Nat) (a : α) (i : Nat) (d : α) :
    (List.replicate n a).getD i d = if i < n then a else d := by
  rw [List.getD_eq_getElem?_getD, List.getElem?_replicate]
  split <;> simp

namespace DenseState

theorem validate_bounds_okD {s : DenseState} {c : Coord}
    (h : inGrid s.width s.height c) : s.validate_bounds c = .ok () := by
  simp [validate_bounds, inGrid] at h ⊢
  simp [h]

theorem validate_bounds_errD {s : DenseState} {c : Coord}
    (h : ¬ inGrid s.width s.height c) :
    s.validate_bounds c = .error (.boundsError c.1 c.2 s.width s.height) := by
  simp only [inGrid] at h
  simp only [validate_bounds]
  rw [if_neg h]

theorem getItem_okD {s : DenseState} {c : Coord}
    (h : inGrid s.width s.height c) : s.getItem c = .ok (s.cellAt c) := by
  simp [getItem, validate_bounds_okD h, ebind_ok]

theorem getItem_errD {s : DenseState} {c : Coord}
    (h : ¬ inGrid s.width s.height c) :
    s.getItem c = .error (.boundsError c.1 c.2 s.width s.height) := by
  simp [getItem, validate_bounds_errD h, ebind_err]

theorem setItem_okD {s : DenseState} {c : Coord} (v : Bool)
    (h : inGrid s.width s.height c) : s.setItem c v = .ok (s.setPure c v) := by
  simp [setItem, validate_bounds_okD h, ebind_ok]

theorem setItem_errD {s : DenseState} {c : Coord} (v : Bool)
    (h : ¬ inGrid s.width s.height c) :
    s.setItem c v = .error (.boundsError c.1 c.2 s.width s.height) := by
  simp [setItem, validate_bounds_errD h, ebind_err]

theorem setPure_heightD (s : DenseState) (c : Coord) (v : Bool) :
    (s.setPure c v).height = s.height := by
  simp [setPure, height]

theorem headD_set_length (l : List (List Bool)) (j i : Nat) (v : Bool) :
    ((l.set j ((l.getD j []).set i v)).headD []).length = (l.headD []).length := by
  cases l with
  | nil => simp
  | cons a t => cases j <;> simp [List.getD]

theorem setPure_widthD (s : DenseState) (c : Coord) (v : Bool) :
    (s.setPure c v).width = s.width := by
  simp only [setPure, width]
  rw [headD_set_length]

theorem valid_row_length {s : DenseState} (h : s.Valid) {j : Nat}
    (hj : j < s.cells.length) : ((s.cells.getD j []).length : Int) = s.width := by
  rw [List.getD_eq_getElem?_getD, List.getElem?_eq_getElem hj]
  exact h.2.2 _ (List.getElem_mem hj)

theorem setPure_validD {s : DenseState} (h : s.Valid) {c : Coord}
    (hc : inGrid s.width s.height c) (v : Bool) : (s.setPure c v).Valid := by
  obtain ⟨hw, hh, hrows⟩ := h
  refine ⟨by rw [setPure_widthD]; exact hw, by rw [setPure_heightD]; exact hh, ?_⟩
  intro row hrow
  rw [setPure_widthD]
  rcases List.mem_or_eq_of_mem_set hrow with hmem | rfl
  · exact hrows row hmem
  · rw [List.length_set]
    have hj : c.2.toNat < s.cells.length := by
      have := hc.2.2.1
      have := hc.2.2.2
      simp only [height] at *
      omega
    exact valid_row_length ⟨hw, hh, hrows⟩ hj

theorem getD_set_eq {α : Type} (l : List α) (i : Nat) (a d : α) (h : i < l.length) :
    (l.set i a).getD i d = a := by
  rw [List.getD_eq_getElem?_getD, List.getElem?_set_eq_of_lt a h, Option.getD_some]

theorem getD_set_ne {α : Type} (l : List α) {i j : Nat} (a d : α) (h : i ≠ j) :
    (l.set i a).getD j d = l.getD j d := by
  rw [List.getD_eq_getElem?_getD, List.getElem?_set_ne h, ← List.getD_eq_getElem?_getD]

theorem cellAt_setPure {s : DenseState} (h : s.Valid) {c c' : Coord}
    (hc : inGrid s.width s.height c) (hc' : inGrid s.width s.height c') (v : Bool) :
    (s.setPure c v).cellAt c' = if c' = c then v else s.cellAt c' := by
  obtain ⟨hx, hxw, hy, hyh⟩ := hc
  obtain ⟨hx', hxw', hy', hyh'⟩ := hc'
  have hj : c.2.toNat < s.cells.length := by simp only [height] at hyh; omega
  have hrow : ((s.cells.getD c.2.toNat []).length : Int) = s.width := valid_row_length h hj
  have hi : c.1.toNat < (s.cells.getD c.2.toNat []).length := by omega
  simp only [setPure, cellAt]
  by_cases hyeq : c'.2.toNat = c.2.toNat
  · rw [hyeq, getD_set_eq _ _ _ _ hj]
    by_cases hxeq : c'.1.toNat = c.1.toNat
    · have hcc : c' = c := Prod.ext (by omega) (by omega)
      rw [if_pos hcc, hxeq, getD_set_eq _ _ _ _ hi]
    · have hne : c' ≠ c := fun hcon => hxeq (by rw [hcon])
      rw [if_neg hne, getD_set_ne _ _ _ (fun hcon => hxeq hcon.symm)]
  · have hne : c' ≠ c := fun hcon => hyeq (by rw [hcon])
    rw [getD_set_ne _ _ _ (fun hcon => hyeq hcon.symm), if_neg hne]

theorem headD_replicate {α : Type} (n : Nat) (a : α) (d : α) (hn : 0 < n) :
    (List.replicate n a).headD d = a := by
  cases n with
  | zero => omega
  | succ m => simp [List.replicate]

theorem make_width {w h : Int} (hw : 0 < w) (hh : 0 < h) :
    DenseState.width ⟨List.replicate h.toNat (List.replicate w.toNat false)⟩ = w := by
  simp only [width]
  rw [headD_replicate _ _ _ (by omega)]
  simp
  omega

theorem make_height {w h : Int} (hh : 0 < h) :
    DenseState.height ⟨List.replicate h.toNat (List.replicate w.toNat false)⟩ = h := by
  simp only [height]
  simp
  omega

theorem make_okD {w h : Int} (hw : 0 < w) (hh : 0 < h) :
    ∃ s : DenseState, DenseState.make w h = .ok s ∧ s.Valid ∧
      s.width = w ∧ s.height = h ∧ ∀ c, s.cellAt c = false := by
  refine ⟨⟨List.replicate h.toNat (List.replicate w.toNat false)⟩, ?_, ?_,
    make_width hw hh, make_height hh, ?_⟩
  · simp only [make]
    rw [if_neg (by omega)]
  · refine ⟨?_, ?_, ?_⟩
    · rw [make_width hw hh]; exact hw
    · rw [make_height hh]; exact hh
    · intro row hrow
      rw [make_width hw hh, List.eq_of_mem_replicate hrow]
      simp
      omega
  · intro c
    simp only [cellAt, getD_replicate]
    split
    · rw [getD_replicate]
      simp
    · simp

theorem make_errD {w h : Int} (hwh : w ≤ 0 ∨ h ≤ 0) :
    DenseState.make w h = .error .emptyGrid := by
  simp only [make]
  rw [if_pos hwh]

end DenseState

theorem mem_pyAdd {l : List Coord} {a c : Coord} :
    a ∈ pyAdd l c ↔ a ∈ l ∨ a = c := by
  simp only [pyAdd]
  split
  · constructor
    · exact Or.inl
    · rintro (ha | rfl)
      · exact ha
      · assumption
  · simp

theorem nodup_pyAdd {l : List Coord} (h : l.Nodup) (c : Coord) : (pyAdd l c).Nodup := by
  simp only [pyAdd]
  split
  · exact h
  · simpa [List.nodup_append] using ⟨h, by assumption⟩

theorem mem_pyDiscard {l : List Coord} (h : l.Nodup) {a c : Coord} :
    a ∈ pyDiscard l c ↔ a ∈ l ∧ a ≠ c := by
  simp only [pyDiscard]
  rw [List.Nodup.mem_erase_iff h]
  tauto

theorem nodup_pyDiscard {l : List Coord} (h : l.Nodup) (c : Coord) :
    (pyDiscard l c).Nodup := h.erase c

namespace SparseState

theorem validate_bounds_okS {s : SparseState} {c : Coord}
    (h : inGrid s.width s.height c) : s.validate_bounds c = .ok () := by
  simp only [inGrid] at h
  simp only [validate_bounds]
  rw [if_pos h]

theorem validate_bounds_errS {s : SparseState} {c : Coord}
    (h : ¬ inGrid s.width s.height c) :
    s.validate_bounds c = .error (.boundsError c.1 c.2 s.width s.height) := by
  simp only [inGrid] at h
  simp only [validate_bounds]
  rw [if_neg h]

theorem getItem_okS {s : SparseState} {c : Coord}
    (h : inGrid s.width s.height c) :
    s.getItem c = .ok (decide (c ∈ s.live_cells)) := by
  simp [getItem, validate_bounds_okS h, ebind_ok]

theorem getItem_errS {s : SparseState} {c : Coord}
    (h : ¬ inGrid s.width s.height c) :
    s.getItem c = .error (.boundsError c.1 c.2 s.width s.height) := by
  simp [getItem, validate_bounds_errS h, ebind_err]

theorem setItem_okS {s : SparseState} {c : Coord} (v : Bool)
    (h : inGrid s.width s.height c) : s.setItem c v = .ok (s.setPure c v) := by
  simp [setItem, validate_bounds_okS h, ebind_ok]

theorem setItem_errS {s : SparseState} {c : Coord} (v : Bool)
    (h : ¬ inGrid s.width s.height c) :
    s.setItem c v = .error (.boundsError c.1 c.2 s.width s.height) := by
  simp [setItem, validate_bounds_errS h, ebind_err]

theorem setPure_widthS (s : SparseState) (c : Coord) (v : Bool) :
    (s.setPure c v).width = s.width := rfl

theorem setPure_heightS (s : SparseState) (c : Coord) (v : Bool) :
    (s.setPure c v).height = s.height := rfl

theorem setPure_validS {s : SparseState} (h : s.Valid) {c : Coord}
    (hc : inGrid s.width s.height c) (v : Bool) : (s.setPure c v).Valid := by
  obtain ⟨hw, hh, hin, hnd⟩ := h
  refine ⟨hw, hh, ?_, ?_⟩
  · intro a ha
    simp only [setPure] at ha
    cases v with
    | true =>
      simp only [if_pos rfl] at ha
      rcases mem_pyAdd.1 ha with hmem | rfl
      · exact hin a hmem
      · exact hc
    | false =>
      simp only [Bool.false_eq_true, if_neg] at ha
      exact hin a ((mem_pyDiscard hnd).1 ha).1
  · simp only [setPure]
    cases v with
    | true => simpa using nodup_pyAdd hnd c
    | false => simpa using nodup_pyDiscard hnd c

theorem mem_setPure {s : SparseState} (h : s.Valid) {c c' : Coord} (v : Bool) :
    (c' ∈ (s.setPure c v).live_cells) ↔
      (if c' = c then v = true else c' ∈ s.live_cells) := by
  cases v with
  | true =>
    show c' ∈ pyAdd s.live_cells c ↔ _
    rw [mem_pyAdd]
    by_cases hcc : c' = c
    · simp [hcc]
    · simp [hcc]
  | false =>
    show c' ∈ pyDiscard s.live_cells c ↔ _
    rw [mem_pyDiscard h.2.2.2]
    by_cases hcc : c' = c
    · simp [hcc]
    · simp [hcc]

theorem make_okS {w h : Int} (hw : 0 < w) (hh : 0 < h) :
    SparseState.make w h = .ok ⟨w, h, []⟩ := by
  simp only [make]
  rw [if_neg (by omega)]

theorem make_errS {w h : Int} (hwh : w ≤ 0 ∨ h ≤ 0) :
    SparseState.make w h = .error .emptyGrid := by
  simp only [make]
  rw [if_pos hwh]

theorem make_valid {w h : Int} (hw : 0 < w) (hh : 0 < h) :
    SparseState.Valid ⟨w, h, []⟩ := by
  exact ⟨hw, hh, by simp, List.nodup_nil⟩

end SparseState

namespace AState

theorem getItem_okA {s : AState} (hs : s.Valid) {c : Coord}
    (h : inGrid s.width s.height c) : s.getItem c = .ok (s.alive c) := by
  cases s with
  | dense d => exact DenseState.getItem_okD h
  | sparse sp => exact SparseState.getItem_okS h

theorem getItem_errA {s : AState} {c : Coord}
    (h : ¬ inGrid s.width s.height c) :
    s.getItem c = .error (.boundsError c.1 c.2 s.width s.height) := by
  cases s with
  | dense d => exact DenseState.getItem_errD h
  | sparse sp => exact SparseState.getItem_errS h

theorem setItem_errA {s : AState} {c : Coord} (v : Bool)
    (h : ¬ inGrid s.width s.height c) :
    s.setItem c v = .error (.boundsError c.1 c.2 s.width s.height) := by
  cases s with
  | dense d =>
    show (d.setItem c v).map AState.dense = _
    rw [DenseState.setItem_errD v h]
    rfl
  | sparse sp =>
    show (sp.setItem c v).map AState.sparse = _
    rw [SparseState.setItem_errS v h]
    rfl

theorem setItem_okA {s : AState} (hs : s.Valid) {c : Coord} (v : Bool)
    (h : inGrid s.width s.height c) :
    ∃ s2 : AState, s.setItem c v = .ok s2 ∧ s2.Valid ∧
      s2.width = s.width ∧ s2.height = s.height ∧
      ∀ c', inGrid s.width s.height c' →
        s2.alive c' = if c' = c then v else s.alive c' := by
  cases s with
  | dense d =>
    refine ⟨.dense (d.setPure c v), ?_, ?_, ?_, ?_, ?_⟩
    · simp [setItem, DenseState.setItem_okD v h, emap_ok]
    · exact DenseState.setPure_validD hs h v
    · exact DenseState.setPure_widthD d c v
    · exact DenseState.setPure_heightD d c v
    · intro c' hc'
      exact DenseState.cellAt_setPure hs h hc' v
  | sparse sp =>
    refine ⟨.sparse (sp.setPure c v), ?_, ?_, ?_, ?_, ?_⟩
    · simp [setItem, SparseState.setItem_okS v h, emap_ok]
    · exact SparseState.setPure_validS hs h v
    · exact SparseState.setPure_widthS sp c v
    · exact SparseState.setPure_heightS sp c v
    · intro c' hc'
      simp only [alive, SparseState.mem_setPure hs v]
      split
      · simp
      · rfl

end AState

/-! ### Claim C3: bounds checking and round-trip of get/set -/

/-- C3: for every valid state of either representation and every
coordinate (x, y): out of bounds, get and set both fail with the
out-of-bounds error carrying the offending coordinate and the grid
bounds; in bounds, get succeeds, and set followed by get round-trips the
written value. -/
theorem state_bounds_and_roundtrip (s : AState) (hs : s.Valid) (x y : Int) (v : Bool) :
    (¬ inGrid s.width s.height (x, y) →
      s.getItem (x, y) = .error (.boundsError x y s.width s.height) ∧
      s.setItem (x, y) v = .error (.boundsError x y s.width s.height)) ∧
    (inGrid s.width s.height (x, y) →
      (∃ b, s.getItem (x, y) = .ok b) ∧
      ∃ s2, s.setItem (x, y) v = .ok s2 ∧ s2.getItem (x, y) = .ok v) := by
  constructor
  · intro h
    exact ⟨AState.getItem_errA h, AState.setItem_errA v h⟩
  · intro h
    refine ⟨⟨s.alive (x, y), AState.getItem_okA hs h⟩, ?_⟩
    obtain ⟨s2, hset, hvalid, hw, hh, halive⟩ := AState.setItem_okA hs v h
    refine ⟨s2, hset, ?_⟩
    have h2 : inGrid s2.width s2.height (x, y) := by rw [hw, hh]; exact h
    rw [AState.getItem_okA hvalid h2, halive (x, y) h]
    simp

/-- Witness for C3 at a concrete state and concrete coordinates. -/
theorem state_bounds_and_roundtrip_witness :
    ((AState.sparse ⟨3, 3, []⟩).getItem (5, 0) =
      .error (.boundsError 5 0 3 3)) ∧
    ∃ s2, (AState.sparse ⟨3, 3, []⟩).setItem (1, 2) true = .ok s2 ∧
      s2.getItem (1, 2) = .ok true := by
  constructor
  · exact ((state_bounds_and_roundtrip (AState.sparse ⟨3, 3, []⟩) (by decide) 5 0 true).1
      (by decide)).1
  · exact ((state_bounds_and_roundtrip (AState.sparse ⟨3, 3, []⟩) (by decide) 1 2 true).2
      (by decide)).2

/-! ### Registry lemmas and claims C5, C6, C7 -/

namespace EngineRegistry

theorem beq_string_comm (a b : String) : (a == b) = (b == a) := by
  by_cases h : a = b
  · simp [h]
  · simp [h, Ne.symm h]

theorem eraseP_congr_local (l : List String) (p q : String → Bool)
    (h : ∀ a ∈ l, p a = q a) : l.eraseP p = l.eraseP q := by
  induction l with
  | nil => rfl
  | cons x t ih =>
    simp only [List.eraseP_cons, h x (by simp)]
    cases hq : q x
    · simp only [cond_false]
      rw [ih (fun a ha => h a (by simp [ha]))]
    · simp only [cond_true]

theorem map_fst_eraseP (l : List (String × EngineClass)) (name : String) :
    (l.eraseP (fun q => q.1 == name)).map Prod.fst =
      (l.map Prod.fst).eraseP (fun a => a == name) := by
  induction l with
  | nil => rfl
  | cons x t ih =>
    simp only [List.eraseP_cons, List.map_cons]
    cases hx : (x.1 == name)
    · simp [hx, ih]
    · simp [hx]

theorem find?_of_mem_keys {r : EngineRegistry} {n : String} (h : n ∈ r.keys) :
    ∃ p, r.engines.find? (fun q => q.1 == n) = some p ∧ p.1 = n := by
  simp only [keys, List.mem_map] at h
  obtain ⟨p, hp, rfl⟩ := h
  have hsome : (r.engines.find? (fun q => q.1 == p.1)).isSome :=
    List.find?_isSome.2 ⟨p, hp, by simp⟩
  obtain ⟨q, hq⟩ := Option.isSome_iff_exists.1 hsome
  exact ⟨q, hq, by simpa using List.find?_some hq⟩

theorem get_default_ok {r : EngineRegistry} {n : String}
    (hd : r.default_engine = some n) (hk : n ∈ r.keys) :
    ∃ e, r.get_default = .ok e := by
  obtain ⟨p, hfind, hp⟩ := find?_of_mem_keys hk
  refine ⟨p.2, ?_⟩
  simp only [get_default, hd, hfind]

/-- The default-tracking invariant maintained by every registry
operation. -/
theorem inv_of_reachable {r : EngineRegistry} (h : Reachable r) :
    (r.default_engine = none ↔ r.engines = []) ∧
    (∀ n, r.default_engine = some n → n ∈ r.keys) := by
  induction h with
  | init => simp [init]
  | register r name e d hr ih =>
    by_cases hk : name ∈ r.keys
    · simpa [register, hk] using ih
    · simp only [register, if_neg hk]
      split
      · refine ⟨by simp, ?_⟩
        intro n hn
        simp only [Option.some_inj] at hn
        subst hn
        simp [keys]
      · obtain ⟨ih1, ih2⟩ := ih
        constructor
        · simp only []
          constructor
          · intro hnone
            rename_i hcond
            exact absurd (Or.inr hnone) hcond
          · intro hcon
            exact absurd hcon (by simp)
        · intro n hn
          have := ih2 n hn
          simp only [keys, List.map_append] at *
          exact List.mem_append_left _ this
  | set_default r name hr ih =>
    by_cases hk : name ∈ r.keys
    · simp only [set_default, if_pos hk]
      refine ⟨?_, ?_⟩
      · constructor
        · intro hcon
          simp at hcon
        · intro hcon
          simp only [keys, hcon] at hk
          simp at hk
      · intro n hn
        simp only [Option.some_inj] at hn
        subst hn
        exact hk
    · simpa [set_default, hk] using ih
  | unregister r name hr ih =>
    by_cases hk : name ∈ r.keys
    · by_cases hlen : r.engines.length = 1
      · simpa [unregister, hk, hlen] using ih
      · simp only [unregister, if_pos hk, if_neg hlen]
        obtain ⟨ih1, ih2⟩ := ih
        have hpair : ∃ p ∈ r.engines, p.1 = name := by
          simp only [keys, List.mem_map] at hk
          obtain ⟨p, hp, hpn⟩ := hk
          exact ⟨p, hp, hpn⟩
        obtain ⟨p0, hp0, hp0n⟩ := hpair
        have hlen2 : 1 ≤ r.engines.length := by
          cases hcells : r.engines with
          | nil => rw [hcells] at hp0; simp at hp0
          | cons a t => simp [hcells]
        have herlen : (r.engines.eraseP (fun q => q.1 == name)).length =
            r.engines.length - 1 :=
          List.length_eraseP_of_mem hp0 (by simp [hp0n])
        have hne : r.engines.eraseP (fun q => q.1 == name) ≠ [] := by
          intro hcon
          rw [hcon] at herlen
          simp at herlen
          omega
        constructor
        · constructor
          · intro hnone
            split at hnone
            · obtain ⟨a, t, hat⟩ := List.exists_cons_of_ne_nil hne
              rw [hat] at hnone
              simp at hnone
            · exact absurd (ih1.1 hnone) (by
                intro hcon
                rw [hcon] at hp0
                simp at hp0)
          · intro hcon
            exact absurd hcon hne
        · intro n hn
          split at hn
          · obtain ⟨a, t, hat⟩ := List.exists_cons_of_ne_nil hne
            rw [hat] at hn
            simp at hn
            subst hn
            simp only [keys, hat, List.map_cons]
            exact List.mem_cons_self _ _
          · have hnk := ih2 n hn
            rename_i hdne
            have hnname : n ≠ name := by
              intro hcon
              subst hcon
              exact hdne hn
            simp only [keys, List.mem_map] at hnk ⊢
            obtain ⟨q, hq, hqn⟩ := hnk
            refine ⟨q, ?_, hqn⟩
            rw [List.mem_eraseP_of_neg (by simp [hqn, hnname])]
            exact hq
    · simpa [unregister, hk] using ih
  | clear r hr => simp [clear]

/-- C5: in every reachable registry state the default name is None
exactly when no engines are registered, a non-None default always names
a registered engine, and get_default succeeds exactly on non-empty
registries, failing with the distinct registry-empty error otherwise. -/
theorem registry_default_invariant (r : EngineRegistry) (h : Reachable r) :
    (r.default_engine = none ↔ r.engines = []) ∧
    (∀ n, r.default_engine = some n → n ∈ r.keys) ∧
    ((∃ e, r.get_default = .ok e) ↔ r.engines ≠ []) ∧
    (r.engines = [] → r.get_default = .error .noEnginesRegistered) := by
  obtain ⟨h1, h2⟩ := inv_of_reachable h
  refine ⟨h1, h2, ?_, ?_⟩
  · constructor
    · rintro ⟨e, he⟩ hcon
      have : r.default_engine = none := h1.2 hcon
      simp [get_default, this] at he
    · intro hne
      have hd : r.default_engine ≠ none := fun hcon => hne (h1.1 hcon)
      obtain ⟨n, hn⟩ := Option.ne_none_iff_exists'.1 hd
      exact get_default_ok hn (h2 n hn)
  · intro hnil
    have : r.default_engine = none := h1.2 hnil
    simp [get_default, this]

/-- Witness for C5 at concrete reachable registries. -/
theorem registry_default_invariant_witness :
    (∃ e, ((EngineRegistry.init.register "loop" EngineClass.loop false).2).get_default =
      .ok e) ∧
    EngineRegistry.init.get_default = .error .noEnginesRegistered := by
  constructor
  · exact (registry_default_invariant
      (EngineRegistry.init.register "loop" EngineClass.loop false).2
      (Reachable.register _ _ _ _ Reachable.init)).2.2.1.2 (by decide)
  · exact (registry_default_invariant EngineRegistry.init Reachable.init).2.2.2 rfl

/-- C6: register fails on a duplicate name leaving the registry
unchanged; otherwise it appends the engine, the first engine ever
registered becomes the default regardless of the flag, and later
registrations move the default only when is_default is true. -/
theorem register_behaviour (r : EngineRegistry) (h : Reachable r) (name : String)
    (e : EngineClass) (is_default : Bool) :
    (name ∈ r.keys →
      r.register name e is_default = (.error (.alreadyRegistered name), r)) ∧
    (name ∉ r.keys →
      ∃ r2, r.register name e is_default = (.ok (), r2) ∧
        r2.engines = r.engines ++ [(name, e)] ∧
        (r.engines = [] → r2.default_engine = some name) ∧
        (r.engines ≠ [] →
          r2.default_engine = if is_default then some name else r.default_engine)) := by
  obtain ⟨h1, _⟩ := inv_of_reachable h
  constructor
  · intro hk
    simp [register, hk]
  · intro hk
    simp only [register, if_neg hk]
    split
    · refine ⟨_, rfl, rfl, fun _ => rfl, ?_⟩
      rename_i hcond
      intro hne
      rcases hcond with hdef | hnone
      · rw [hdef, if_pos rfl]
      · exact absurd (h1.1 hnone) hne
    · rename_i hcond
      push_neg at hcond
      refine ⟨_, rfl, rfl, ?_, ?_⟩
      · intro hnil
        exact absurd (h1.2 hnil) hcond.2
      · intro _
        rw [if_neg (by
          intro hcon
          rw [hcon] at hcond
          exact hcond.1 rfl)]

/-- Witness for C6: registering into the empty registry and a duplicate
registration. -/
theorem register_behaviour_witness :
    (∃ r2, EngineRegistry.init.register "loop" EngineClass.loop false = (.ok (), r2) ∧
      r2.default_engine = some "loop") ∧
    ((EngineRegistry.init.register "loop" EngineClass.loop false).2.register
        "loop" EngineClass.numpy true =
      (.error (.alreadyRegistered "loop"),
        (EngineRegistry.init.register "loop" EngineClass.loop false).2)) := by
  constructor
  · obtain ⟨r2, hreg, _, hfirst, _⟩ :=
      (register_behaviour EngineRegistry.init Reachable.init "loop" EngineClass.loop
        false).2 (by decide)
    exact ⟨r2, hreg, hfirst rfl⟩
  · exact (register_behaviour (EngineRegistry.init.register "loop" EngineClass.loop false).2
      (Reachable.register _ _ _ _ Reachable.init) "loop" EngineClass.numpy true).1
      (by decide)

/-- C7: unregister of an unknown name fails with the lookup error, of the
sole remaining engine with the distinct registry-state error (registry
unchanged in both cases); otherwise the engine is removed and, when it
was the default, the new default is the oldest remaining name in
insertion order. -/
theorem unregister_behaviour (r : EngineRegistry) (name : String) :
    (name ∉ r.keys →
      r.unregister name = (.error (.notRegistered name), r)) ∧
    (name ∈ r.keys → r.engines.length = 1 →
      r.unregister name = (.error .onlyRemainingEngine, r)) ∧
    Err.notRegistered name ≠ Err.onlyRemainingEngine ∧
    (name ∈ r.keys → r.engines.length ≠ 1 →
      ∃ r2, r.unregister name = (.ok (), r2) ∧
        r2.keys = r.keys.erase name ∧ r2.keys ≠ [] ∧
        (r.default_engine = some name → r2.default_engine = r2.keys.head?) ∧
        (r.default_engine ≠ some name → r2.default_engine = r.default_engine)) := by
  constructor
  · intro hk
    simp [unregister, hk]
  refine ⟨?_, by simp, ?_⟩
  · intro hk hlen
    simp [unregister, hk, hlen]
  · intro hk hlen
    simp only [unregister, if_pos hk, if_neg hlen]
    have hkeys : (r.engines.eraseP (fun q => q.1 == name)).map Prod.fst =
        r.keys.erase name := by
      rw [map_fst_eraseP, List.erase_eq_eraseP]
      exact eraseP_congr_local _ _ _ (fun a _ => beq_string_comm a name)
    have hpair : ∃ p ∈ r.engines, p.1 = name := by
      simp only [keys, List.mem_map] at hk
      obtain ⟨p, hp, hpn⟩ := hk
      exact ⟨p, hp, hpn⟩
    obtain ⟨p0, hp0, hp0n⟩ := hpair
    have hlen1 : 1 ≤ r.engines.length := by
      cases hcells : r.engines with
      | nil => rw [hcells] at hp0; simp at hp0
      | cons a t => simp [hcells]
    have herlen : (r.engines.eraseP (fun q => q.1 == name)).length =
        r.engines.length - 1 :=
      List.length_eraseP_of_mem hp0 (by simp [hp0n])
    have hne : r.engines.eraseP (fun q => q.1 == name) ≠ [] := by
      intro hcon
      rw [hcon] at herlen
      simp at herlen
      omega
    refine ⟨_, rfl, ?_, ?_, ?_, ?_⟩
    · exact hkeys
    · show (r.engines.eraseP (fun q => q.1 == name)).map Prod.fst ≠ []
      intro hcon
      exact hne (List.map_eq_nil_iff.1 hcon)
    · intro hdef
      simp only [if_pos hdef, keys]
      rw [List.head?_map]
    · intro hdef
      simp only [if_neg hdef]

/-- Witness for C7: a two-engine registry where the default is removed
and the oldest remaining engine takes over, plus the sole-engine failure
case. -/
theorem unregister_behaviour_witness :
    ((∃ r2, ((EngineRegistry.init.register "loop" EngineClass.loop false).2.register
        "numpy" EngineClass.numpy false).2.unregister "loop" = (.ok (), r2) ∧
      r2.keys = ["numpy"] ∧ r2.default_engine = some "numpy") ∧
      (EngineRegistry.init.register "loop" EngineClass.loop false).2.unregister "loop" =
        (.error .onlyRemainingEngine,
          (EngineRegistry.init.register "loop" EngineClass.loop false).2)) := by
  constructor
  · obtain ⟨r2, hr2, hkeys, _, hdef, _⟩ := (unregister_behaviour
      ((EngineRegistry.init.register "loop" EngineClass.loop false).2.register
        "numpy" EngineClass.numpy false).2 "loop").2.2.2 (by decide) (by decide)
    have hk2 : r2.keys = ["numpy"] := by
      rw [hkeys]
      decide
    refine ⟨r2, hr2, hk2, ?_⟩
    rw [hdef (by decide), hk2]
    rfl
  · exact (unregister_behaviour (EngineRegistry.init.register "loop" EngineClass.loop false).2
      "loop").2.1 (by decide) (by decide)

end EngineRegistry

/-! ### Generic fold and map lemmas for the Except-embedded loops -/

theorem foldlM_eq_foldl {α β : Type} (P : β → Prop) (l : List α)
    (f : β → α → Except Err β) (g : β → α → β) (init : β) (hP : P init)
    (hstep : ∀ b a, P b → a ∈ l → f b a = .ok (g b a) ∧ P (g b a)) :
    l.foldlM f init = .ok (l.foldl g init) ∧ P (l.foldl g init) := by
  induction l generalizing init with
  | nil => exact ⟨rfl, hP⟩
  | cons x t ih =>
    obtain ⟨hfx, hPx⟩ := hstep init x hP (List.mem_cons_self x t)
    rw [List.foldlM_cons, hfx, ebind_ok, List.foldl_cons]
    exact ih _ hPx (fun b a hb ha => hstep b a hb (List.mem_cons_of_mem x ha))

theorem mapM'_eq_map {α β : Type} (l : List α) (f : α → Except Err β) (g : α → β)
    (h : ∀ a ∈ l, f a = .ok (g a)) : l.mapM' f = .ok (l.map g) := by
  induction l with
  | nil => rfl
  | cons x t ih =>
    simp only [List.mapM', h x (List.mem_cons_self x t), ebind_ok,
      ih (fun a ha => h a (List.mem_cons_of_mem x ha)), List.map_cons]
    rfl

theorem mapM_eq_map {α β : Type} (l : List α) (f : α → Except Err β) (g : α → β)
    (h : ∀ a ∈ l, f a = .ok (g a)) : l.mapM f = .ok (l.map g) := by
  rw [← List.mapM'_eq_mapM]
  exact mapM'_eq_map l f g h

theorem foldlM_flatMap {α β γ : Type} (l : List α) (f : α → List γ)
    (step : β → γ → Except Err β) (init : β) :
    (l.flatMap f).foldlM step init =
      l.foldlM (fun acc a => (f a).foldlM step acc) init := by
  induction l generalizing init with
  | nil => rfl
  | cons x t ih =>
    rw [List.flatMap_cons, List.foldlM_append, List.foldlM_cons]
    cases hx : (f x).foldlM step init with
    | error e => rw [ebind_err, ebind_err]
    | ok b => rw [ebind_ok, ebind_ok, ih]

theorem foldlM_map {α β γ : Type} (l : List α) (g : α → γ)
    (step : β → γ → Except Err β) (init : β) :
    (l.map g).foldlM step init = l.foldlM (fun b a => step b (g a)) init := by
  induction l generalizing init with
  | nil => rfl
  | cons x t ih =>
    rw [List.map_cons, List.foldlM_cons, List.foldlM_cons]
    cases hx : step init (g x) with
    | error e => rw [ebind_err, ebind_err]
    | ok b => rw [ebind_ok, ebind_ok, ih]

theorem nested_foldlM_coordList (w h : Int) {β : Type}
    (step : β → Coord → Except Err β) (init : β) :
    (List.range h.toNat).foldlM (fun acc (y : Nat) =>
      (List.range w.toNat).foldlM (fun acc2 (x : Nat) => step acc2 ((x : Int), (y : Int))) acc)
      init =
    (coordList w h).foldlM step init := by
  rw [coordList, foldlM_flatMap]
  have hfun : (fun (acc : β) (y : Nat) =>
      ((List.range w.toNat).map (fun (x : Nat) => ((x : Int), (y : Int)))).foldlM step acc) =
      (fun (acc : β) (y : Nat) =>
        (List.range w.toNat).foldlM (fun acc2 (x : Nat) => step acc2 ((x : Int), (y : Int))) acc) := by
    funext acc y
    exact foldlM_map _ _ _ _
  rw [hfun]

theorem mem_coordList {w h : Int} {c : Coord} :
    c ∈ coordList w h ↔ inGrid w h c := by
  constructor
  · intro hc
    simp only [coordList, List.mem_flatMap, List.mem_map, List.mem_range] at hc
    obtain ⟨y, hy, x, hx, hxy⟩ := hc
    subst hxy
    refine ⟨?_, ?_, ?_, ?_⟩ <;> dsimp only [inGrid] <;> omega
  · intro hc
    obtain ⟨hx0, hxw, hy0, hyh⟩ := hc
    simp only [coordList, List.mem_flatMap, List.mem_map, List.mem_range]
    refine ⟨c.2.toNat, by omega, c.1.toNat, by omega, ?_⟩
    rw [Prod.ext_iff]
    constructor <;> dsimp only <;> omega

/-! ### Characterisation of the dense write loops -/

theorem foldl_setPure_width (l : List Coord) (F : Coord → Bool) (init : DenseState) :
    (l.foldl (fun acc c => acc.setPure c (F c)) init).width = init.width := by
  induction l generalizing init with
  | nil => rfl
  | cons x t ih => rw [List.foldl_cons, ih, DenseState.setPure_widthD]

theorem foldl_setPure_height (l : List Coord) (F : Coord → Bool) (init : DenseState) :
    (l.foldl (fun acc c => acc.setPure c (F c)) init).height = init.height := by
  induction l generalizing init with
  | nil => rfl
  | cons x t ih => rw [List.foldl_cons, ih, DenseState.setPure_heightD]

theorem foldl_setPure_valid (l : List Coord) (F : Coord → Bool) {w h : Int}
    (init : DenseState) (hw : init.width = w) (hh : init.height = h)
    (hv : init.Valid) (hl : ∀ c ∈ l, inGrid w h c) :
    (l.foldl (fun acc c => acc.setPure c (F c)) init).Valid := by
  induction l generalizing init with
  | nil => exact hv
  | cons x t ih =>
    rw [List.foldl_cons]
    have hx : inGrid init.width init.height x := by
      rw [hw, hh]
      exact hl x (List.mem_cons_self x t)
    exact ih (init.setPure x (F x))
      (by rw [DenseState.setPure_widthD]; exact hw)
      (by rw [DenseState.setPure_heightD]; exact hh)
      (DenseState.setPure_validD hv hx (F x))
      (fun c hc => hl c (List.mem_cons_of_mem x hc))

theorem foldl_setPure_cellAt (l : List Coord) (F : Coord → Bool) {w h : Int}
    (init : DenseState) (hw : init.width = w) (hh : init.height = h)
    (hv : init.Valid) (hl : ∀ c ∈ l, inGrid w h c) {c' : Coord}
    (hc' : inGrid w h c') :
    (l.foldl (fun acc c => acc.setPure c (F c)) init).cellAt c' =
      if c' ∈ l then F c' else init.cellAt c' := by
  induction l generalizing init with
  | nil => simp
  | cons x t ih =>
    rw [List.foldl_cons]
    have hx : inGrid init.width init.height x := by
      rw [hw, hh]
      exact hl x (List.mem_cons_self x t)
    have hcc : inGrid init.width init.height c' := by
      rw [hw, hh]
      exact hc'
    rw [ih (init.setPure x (F x))
      (by rw [DenseState.setPure_widthD]; exact hw)
      (by rw [DenseState.setPure_heightD]; exact hh)
      (DenseState.setPure_validD hv hx (F x))
      (fun c hc => hl c (List.mem_cons_of_mem x hc))]
    rw [DenseState.cellAt_setPure hv hx hcc (F x)]
    by_cases hmem : c' ∈ t
    · simp [hmem]
    · by_cases heq : c' = x
      · simp [hmem, heq]
      · simp [hmem, heq]

/-! ### Characterisation of the sparse write loops -/

theorem foldl_setPureS_width (l : List Coord) (init : SparseState) :
    (l.foldl (fun acc c => acc.setPure c true) init).width = init.width := by
  induction l generalizing init with
  | nil => rfl
  | cons x t ih => rw [List.foldl_cons, ih]; rfl

theorem foldl_setPureS_height (l : List Coord) (init : SparseState) :
    (l.foldl (fun acc c => acc.setPure c true) init).height = init.height := by
  induction l generalizing init with
  | nil => rfl
  | cons x t ih => rw [List.foldl_cons, ih]; rfl

theorem foldl_setPureS_valid (l : List Coord) (init : SparseState)
    (hv : init.Valid) (hl : ∀ c ∈ l, inGrid init.width init.height c) :
    (l.foldl (fun acc c => acc.setPure c true) init).Valid := by
  induction l generalizing init with
  | nil => exact hv
  | cons x t ih =>
    rw [List.foldl_cons]
    exact ih (init.setPure x true)
      (SparseState.setPure_validS hv (hl x (List.mem_cons_self x t)) true)
      (fun c hc => hl c (List.mem_cons_of_mem x hc))

theorem foldl_setPureS_mem (l : List Coord) (init : SparseState)
    (hv : init.Valid) (hl : ∀ c ∈ l, inGrid init.width init.height c) (c' : Coord) :
    c' ∈ (l.foldl (fun acc c => acc.setPure c true) init).live_cells ↔
      c' ∈ l ∨ c' ∈ init.live_cells := by
  induction l generalizing init with
  | nil => simp
  | cons x t ih =>
    rw [List.foldl_cons]
    rw [ih (init.setPure x true)
      (SparseState.setPure_validS hv (hl x (List.mem_cons_self x t)) true)
      (fun c hc => hl c (List.mem_cons_of_mem x hc))]
    have hmem := @SparseState.mem_setPure _ hv x c' true
    by_cases heq : c' = x
    · simp only [heq] at hmem ⊢
      simp [hmem]
    · simp only [if_neg heq] at hmem
      rw [hmem]
      simp [heq]

/-! ### Loop engine correctness -/

theorem AState.width_pos {s : AState} (hs : s.Valid) : 0 < s.width := by
  cases s with
  | dense d => exact hs.1
  | sparse sp => exact hs.1

theorem AState.height_pos {s : AState} (hs : s.Valid) : 0 < s.height := by
  cases s with
  | dense d => exact hs.2.1
  | sparse sp => exact hs.2.1

/-- The literal neighbour list of LoopEngine._neighbours is the
Moore-offset list shifted by the cell. -/
theorem lit_neighbours_eq (c : Coord) :
    ([(c.1 - 1, c.2 - 1), (c.1, c.2 - 1), (c.1 + 1, c.2 - 1),
      (c.1 - 1, c.2), (c.1 + 1, c.2),
      (c.1 - 1, c.2 + 1), (c.1, c.2 + 1), (c.1 + 1, c.2 + 1)] : List Coord) =
    Spec.mooreDeltas.map (fun d => (c.1 + d.1, c.2 + d.2)) := by
  simp [Spec.mooreDeltas, Prod.ext_iff]
  omega

theorem LoopEngine.neighbours_ok {w h : Int} {c : Coord} (hc : inGrid w h c) :
    LoopEngine.neighbours c w h =
      .ok ((Spec.mooreDeltas.map (fun d => (c.1 + d.1, c.2 + d.2))).filter
        (fun n => decide (inGrid w h n))) := by
  obtain ⟨h1, h2, h3, h4⟩ := hc
  simp only [LoopEngine.neighbours]
  rw [if_neg (by push_neg; omega), lit_neighbours_eq]

theorem LoopEngine.alive_neighbours_ok {s : AState} (hs : s.Valid) {c : Coord}
    (hc : inGrid s.width s.height c) :
    LoopEngine.alive_neighbours c s = .ok (Spec.neighbourCount s c) := by
  simp only [LoopEngine.alive_neighbours]
  rw [LoopEngine.neighbours_ok hc, ebind_ok]
  rw [mapM_eq_map _ _ (fun n => s.alive n) (fun n hn => AState.getItem_okA hs (by
    have hmem := List.of_mem_filter hn
    simpa using hmem))]
  rw [ebind_ok]
  congr 1
  simp only [List.count, List.countP_map, List.countP_filter, Spec.neighbourCount]
  apply List.countP_congr
  intro d _
  simp only [Function.comp]
  cases ha : s.alive (c.1 + d.1, c.2 + d.2) <;>
    cases hb : decide (inGrid s.width s.height (c.1 + d.1, c.2 + d.2)) <;> simp [ha, hb]

theorem LoopEngine.next_cell_state_ok {s : AState} (hs : s.Valid) {c : Coord}
    (hc : inGrid s.width s.height c) :
    LoopEngine.next_cell_state c s = .ok (Spec.nextAlive s c) := by
  simp only [LoopEngine.next_cell_state]
  rw [LoopEngine.alive_neighbours_ok hs hc, ebind_ok, AState.getItem_okA hs hc, ebind_ok]
  simp only [Spec.nextAlive]
  cases halive : s.alive c
  · simp only [Bool.false_eq_true, if_neg]
    by_cases h3 : Spec.neighbourCount s c = 3
    · simp [h3, epure_ok]
    · simp [h3, epure_ok]
  · simp only [if_pos]
    by_cases h23 : Spec.neighbourCount s c < 2 ∨ Spec.neighbourCount s c > 3
    · rw [if_pos h23]
      have hne : ¬ (Spec.neighbourCount s c = 2 ∨ Spec.neighbourCount s c = 3) := by omega
      simp [hne, epure_ok]
    · rw [if_neg h23]
      have heq : Spec.neighbourCount s c = 2 ∨ Spec.neighbourCount s c = 3 := by omega
      simp [heq, epure_ok]

/-- Full characterisation of LoopEngine.next_state on a valid state: it
succeeds, produces a dense state of the same dimensions, and every
in-bounds cell holds the spec rule value. -/
theorem LoopEngine.next_state_okL (s : AState) (hs : s.Valid) :
    ∃ d : DenseState, LoopEngine.next_state s = .ok (.dense d) ∧ d.Valid ∧
      d.width = s.width ∧ d.height = s.height ∧
      ∀ c, inGrid s.width s.height c → d.cellAt c = Spec.nextAlive s c := by
  obtain ⟨init, hmake, hvalid, hw, hh, hcells⟩ :=
    DenseState.make_okD (AState.width_pos hs) (AState.height_pos hs)
  simp only [LoopEngine.next_state]
  rw [hmake, ebind_ok]
  have hnest : (List.range s.height.toNat).foldlM (fun acc (y : Nat) =>
      (List.range s.width.toNat).foldlM (fun acc2 (x : Nat) =>
        LoopEngine.next_cell_state ((x : Int), (y : Int)) s >>=
          fun v => acc2.setItem ((x : Int), (y : Int)) v) acc) init =
      (coordList s.width s.height).foldlM
        (fun acc2 c => LoopEngine.next_cell_state c s >>= fun v => acc2.setItem c v)
        init :=
    nested_foldlM_coordList s.width s.height
      (fun acc2 c => LoopEngine.next_cell_state c s >>= fun v => acc2.setItem c v) init
  rw [hnest]
  have hfold := foldlM_eq_foldl
    (fun acc : DenseState => acc.Valid ∧ acc.width = s.width ∧ acc.height = s.height)
    (coordList s.width s.height)
    (fun acc2 c => LoopEngine.next_cell_state c s >>= fun v => acc2.setItem c v)
    (fun acc2 c => acc2.setPure c (Spec.nextAlive s c))
    init ⟨hvalid, hw, hh⟩ ?_
  · obtain ⟨hfoldeq, hPfin⟩ := hfold
    rw [hfoldeq, ebind_ok]
    refine ⟨_, rfl, hPfin.1, hPfin.2.1, hPfin.2.2, ?_⟩
    intro c hcin
    rw [foldl_setPure_cellAt (coordList s.width s.height) _ init hw hh hvalid
      (fun a ha => mem_coordList.1 ha) hcin]
    rw [if_pos (mem_coordList.2 hcin)]
  · intro b a hPb ha
    have hain : inGrid s.width s.height a := mem_coordList.1 ha
    have hab : inGrid b.width b.height a := by
      rw [hPb.2.1, hPb.2.2]
      exact hain
    constructor
    · show (LoopEngine.next_cell_state a s >>= fun v => b.setItem a v) =
        .ok (b.setPure a (Spec.nextAlive s a))
      rw [LoopEngine.next_cell_state_ok hs hain, ebind_ok,
        DenseState.setItem_okD _ hab]
    · exact ⟨DenseState.setPure_validD hPb.1 hab _,
        by rw [DenseState.setPure_widthD]; exact hPb.2.1,
        by rw [DenseState.setPure_heightD]; exact hPb.2.2⟩

/-- C2: LoopEngine.next_state preserves the dimensions and computes, for
every in-bounds cell, exactly Conway's rule on the input generation with
non-wrapping boundaries: an alive cell survives exactly with 2 or 3
alive Moore neighbours, a dead cell becomes alive exactly with 3. -/
theorem loop_engine_conway (s : AState) (hs : s.Valid) :
    ∃ d : DenseState, LoopEngine.next_state s = .ok (.dense d) ∧
      (AState.dense d).width = s.width ∧ (AState.dense d).height = s.height ∧
      ∀ c : Coord, inGrid s.width s.height c →
        ((AState.dense d).alive c = true ↔
          (if s.alive c = true
           then Spec.neighbourCount s c = 2 ∨ Spec.neighbourCount s c = 3
           else Spec.neighbourCount s c = 3)) := by
  obtain ⟨d, hok, hv, hw, hh, hcell⟩ := LoopEngine.next_state_okL s hs
  refine ⟨d, hok, hw, hh, ?_⟩
  intro c hcin
  have := hcell c hcin
  show d.cellAt c = true ↔ _
  rw [this]
  simp only [Spec.nextAlive]
  cases halive : s.alive c <;> simp [halive]

/-- Witness for C2: a 2x2 grid with a single live cell, which dies of
underpopulation. -/
theorem loop_engine_conway_witness :
    ∃ d : DenseState,
      LoopEngine.next_state (AState.sparse ⟨2, 2, [(0, 0)]⟩) = .ok (.dense d) ∧
      (AState.dense d).alive (0, 0) = false := by
  obtain ⟨d, hok, hw, hh, hcell⟩ :=
    loop_engine_conway (AState.sparse ⟨2, 2, [(0, 0)]⟩) (by decide)
  refine ⟨d, hok, ?_⟩
  have hc := hcell (0, 0) (by decide)
  cases hb : (AState.dense d).alive (0, 0) with
  | false => rfl
  | true => exact absurd (hc.mp hb) (by decide)

/-! ### Claim C8: the blinker oscillates with period 2 -/

/-- C8: one generation of the blinker yields exactly the vertical triple,
and a second generation restores the original horizontal triple (live
cells compared as sets). -/
theorem blinker_oscillates :
    ((blinker0 >>= LoopEngine.next_state).map
      (fun s => s.get_live_cells.toFinset)) =
      .ok ({(2, 1), (2, 2), (2, 3)} : Finset Coord) ∧
    ((blinker0 >>= LoopEngine.next_state >>= LoopEngine.next_state).map
      (fun s => s.get_live_cells.toFinset)) =
      .ok ({(1, 2), (2, 2), (3, 2)} : Finset Coord) := by
  constructor
  · decide
  · decide

/-! ### Live-cell characterisations and claim C4 -/

theorem DenseState.mem_get_live_cellsD {s : DenseState} (c : Coord) :
    c ∈ s.get_live_cells ↔ inGrid s.width s.height c ∧ s.cellAt c = true := by
  simp only [DenseState.get_live_cells, List.mem_flatMap, List.mem_filterMap,
    List.mem_range]
  constructor
  · rintro ⟨y, hy, x, hx, hif⟩
    by_cases hraw : (s.cells.getD y []).getD x false = true
    · rw [if_pos hraw] at hif
      obtain rfl := Option.some_inj.1 hif
      refine ⟨?_, ?_⟩
      · refine ⟨?_, ?_, ?_, ?_⟩ <;> dsimp only <;> omega
      · dsimp only [cellAt]
        have hx2 : ((x : Int)).toNat = x := by omega
        have hy2 : ((y : Int)).toNat = y := by omega
        rw [hx2, hy2]
        exact hraw
    · rw [if_neg hraw] at hif
      exact absurd hif (by simp)
  · rintro ⟨⟨hx0, hxw, hy0, hyh⟩, hcell⟩
    refine ⟨c.2.toNat, ?_, c.1.toNat, ?_, ?_⟩
    · omega
    · omega
    · dsimp only [cellAt] at hcell
      rw [if_pos hcell]
      congr 1
      rw [Prod.ext_iff]
      constructor <;> dsimp only <;> omega

theorem SparseState.mem_get_live_cellsS {s : SparseState} (hs : s.Valid) (c : Coord) :
    c ∈ s.get_live_cells ↔
      inGrid s.width s.height c ∧ decide (c ∈ s.live_cells) = true := by
  constructor
  · intro hmem
    exact ⟨hs.2.2.1 c hmem, by simpa using hmem⟩
  · rintro ⟨_, hmem⟩
    simpa using hmem

theorem AState.mem_get_live_cellsA {s : AState} (hs : s.Valid) (c : Coord) :
    c ∈ s.get_live_cells ↔ inGrid s.width s.height c ∧ s.alive c = true := by
  cases s with
  | dense d => exact DenseState.mem_get_live_cellsD c
  | sparse sp => exact SparseState.mem_get_live_cellsS hs c

/-- DenseState.from_state on a valid source succeeds and copies
dimensions and live cells exactly. -/
theorem DenseState.from_state_okD (s : AState) (hs : s.Valid) :
    ∃ d, DenseState.from_state s = .ok d ∧ d.Valid ∧ d.width = s.width ∧
      d.height = s.height ∧
      ∀ c, (c ∈ d.get_live_cells ↔ c ∈ s.get_live_cells) := by
  obtain ⟨init, hmake, hvalid, hw, hh, hcells⟩ :=
    DenseState.make_okD (AState.width_pos hs) (AState.height_pos hs)
  simp only [DenseState.from_state]
  rw [hmake, ebind_ok]
  have hfold := foldlM_eq_foldl
    (fun acc : DenseState => acc.Valid ∧ acc.width = s.width ∧ acc.height = s.height)
    s.get_live_cells
    (fun st c => st.setItem c true)
    (fun st c => st.setPure c true)
    init ⟨hvalid, hw, hh⟩ ?_
  · obtain ⟨hfoldeq, hPfin⟩ := hfold
    rw [hfoldeq]
    refine ⟨_, rfl, hPfin.1, hPfin.2.1, hPfin.2.2, ?_⟩
    intro c
    by_cases hcin : inGrid s.width s.height c
    · rw [DenseState.mem_get_live_cellsD c]
      have hF : ∀ a ∈ s.get_live_cells, inGrid s.width s.height a :=
        fun a ha => ((AState.mem_get_live_cellsA hs a).1 ha).1
      have := foldl_setPure_cellAt s.get_live_cells (fun _ => true) init hw hh hvalid
        hF hcin
      constructor
      · intro hmem
        obtain ⟨_, hcell⟩ := hmem
        rw [this] at hcell
        by_cases hmem2 : c ∈ s.get_live_cells
        · exact hmem2
        · rw [if_neg hmem2, hcells c] at hcell
          exact absurd hcell (by simp)
      · intro hmem
        refine ⟨by rw [hPfin.2.1, hPfin.2.2]; exact hcin, ?_⟩
        rw [this, if_pos hmem]
    · constructor
      · intro hmem
        have := (DenseState.mem_get_live_cellsD c).1 hmem
        rw [hPfin.2.1, hPfin.2.2] at this
        exact absurd this.1 hcin
      · intro hmem
        have := (AState.mem_get_live_cellsA hs c).1 hmem
        exact absurd this.1 hcin
  · intro b a hPb ha
    have hain : inGrid s.width s.height a := ((AState.mem_get_live_cellsA hs a).1 ha).1
    have hab : inGrid b.width b.height a := by
      rw [hPb.2.1, hPb.2.2]
      exact hain
    refine ⟨DenseState.setItem_okD true hab, DenseState.setPure_validD hPb.1 hab true,
      by rw [DenseState.setPure_widthD]; exact hPb.2.1,
      by rw [DenseState.setPure_heightD]; exact hPb.2.2⟩

/-- SparseState.from_state on a valid source succeeds and copies
dimensions and live cells exactly. -/
theorem SparseState.from_state_okS (s : AState) (hs : s.Valid) :
    ∃ sp, SparseState.from_state s = .ok sp ∧ sp.Valid ∧ sp.width = s.width ∧
      sp.height = s.height ∧
      ∀ c, (c ∈ sp.get_live_cells ↔ c ∈ s.get_live_cells) := by
  have hw := AState.width_pos hs
  have hh := AState.height_pos hs
  simp only [SparseState.from_state]
  rw [SparseState.make_okS hw hh, ebind_ok]
  have hinitv : SparseState.Valid ⟨s.width, s.height, []⟩ :=
    SparseState.make_valid hw hh
  have hfold := foldlM_eq_foldl
    (fun acc : SparseState => acc.Valid ∧ acc.width = s.width ∧ acc.height = s.height)
    s.get_live_cells
    (fun st c => st.setItem c true)
    (fun st c => st.setPure c true)
    ⟨s.width, s.height, []⟩ ⟨hinitv, rfl, rfl⟩ ?_
  · obtain ⟨hfoldeq, hPfin⟩ := hfold
    rw [hfoldeq]
    refine ⟨_, rfl, hPfin.1, hPfin.2.1, hPfin.2.2, ?_⟩
    intro c
    have hF : ∀ a ∈ s.get_live_cells,
        inGrid (SparseState.mk s.width s.height []).width
          (SparseState.mk s.width s.height []).height a :=
      fun a ha => ((AState.mem_get_live_cellsA hs a).1 ha).1
    have hmem := foldl_setPureS_mem s.get_live_cells ⟨s.width, s.height, []⟩ hinitv hF c
    show c ∈ (s.get_live_cells.foldl (fun st c => st.setPure c true)
      (SparseState.mk s.width s.height [])).live_cells ↔ _
    rw [hmem]
    simp
  · intro b a hPb ha
    have hain : inGrid s.width s.height a := ((AState.mem_get_live_cellsA hs a).1 ha).1
    have hab : inGrid b.width b.height a := by
      rw [hPb.2.1, hPb.2.2]
      exact hain
    refine ⟨SparseState.setItem_okS true hab, SparseState.setPure_validS hPb.1 hab true,
      hPb.2.1, hPb.2.2⟩

/-- C4: both from_state conversions preserve width, height and the
live-cell set exactly, and converting Dense to Sparse and back preserves
live_cells exactly. -/
theorem from_state_preserves (s : AState) (hs : s.Valid) :
    (∃ d, DenseState.from_state s = .ok d ∧ d.width = s.width ∧
      d.height = s.height ∧
      d.get_live_cells.toFinset = s.get_live_cells.toFinset) ∧
    (∃ sp, SparseState.from_state s = .ok sp ∧ sp.width = s.width ∧
      sp.height = s.height ∧
      sp.get_live_cells.toFinset = s.get_live_cells.toFinset) ∧
    (∃ sp d2, SparseState.from_state s = .ok sp ∧
      DenseState.from_state (.sparse sp) = .ok d2 ∧
      d2.get_live_cells.toFinset = s.get_live_cells.toFinset) := by
  obtain ⟨d, hd, hdv, hdw, hdh, hdm⟩ := DenseState.from_state_okD s hs
  obtain ⟨sp, hsp, hspv, hspw, hsph, hspm⟩ := SparseState.from_state_okS s hs
  refine ⟨⟨d, hd, hdw, hdh, ?_⟩, ⟨sp, hsp, hspw, hsph, ?_⟩, ?_⟩
  · apply Finset.ext
    intro a
    simp only [List.mem_toFinset]
    exact hdm a
  · apply Finset.ext
    intro a
    simp only [List.mem_toFinset]
    exact hspm a
  · obtain ⟨d2, hd2, hd2v, hd2w, hd2h, hd2m⟩ :=
      DenseState.from_state_okD (.sparse sp) hspv
    refine ⟨sp, d2, hsp, hd2, ?_⟩
    apply Finset.ext
    intro a
    simp only [List.mem_toFinset]
    rw [hd2m a]
    exact hspm a

/-- Witness for C4: a 2x3 sparse state with two live cells converts to
dense and back preserving the live set. -/
theorem from_state_preserves_witness :
    ∃ d, DenseState.from_state (AState.sparse ⟨2, 3, [(1, 2), (0, 0)]⟩) = .ok d ∧
      d.get_live_cells.toFinset =
        ([(1, 2), (0, 0)] : List Coord).toFinset := by
  obtain ⟨⟨d, hd, _, _, hdm⟩, _, _⟩ :=
    from_state_preserves (AState.sparse ⟨2, 3, [(1, 2), (0, 0)]⟩) (by decide)
  exact ⟨d, hd, hdm⟩

/-! ### Spec rule congruence under logical equality of states -/

theorem Spec.neighbourCount_congr {s t : AState} (hw : t.width = s.width)
    (hh : t.height = s.height)
    (ha : ∀ c, inGrid s.width s.height c → t.alive c = s.alive c) (c : Coord) :
    Spec.neighbourCount t c = Spec.neighbourCount s c := by
  unfold Spec.neighbourCount
  apply List.countP_congr
  intro d _
  rw [hw, hh]
  by_cases hin : inGrid s.width s.height (c.1 + d.1, c.2 + d.2)
  · rw [ha _ hin]
  · simp [hin]

theorem Spec.nextAlive_congr {s t : AState} (hw : t.width = s.width)
    (hh : t.height = s.height)
    (ha : ∀ c, inGrid s.width s.height c → t.alive c = s.alive c) {c : Coord}
    (hc : inGrid s.width s.height c) :
    Spec.nextAlive t c = Spec.nextAlive s c := by
  unfold Spec.nextAlive
  rw [Spec.neighbourCount_congr hw hh ha c, ha c hc]

/-! ### Sparse engine: neighbour counting and the frontier set -/

theorem deltas_perm_moore : SparseEngine.deltas.Perm Spec.mooreDeltas := by decide

theorem moore_neg_mem : ∀ d ∈ Spec.mooreDeltas,
    ((-d.1, -d.2) : Int × Int) ∈ SparseEngine.deltas := by decide

/-- With every live cell in bounds, the sparse engine's unclipped
membership count agrees with the spec's bounds-clipped neighbour count. -/
theorem sparse_count_eq (s : SparseState) (hs : s.Valid) (c : Coord) :
    SparseEngine.deltas.countP
        (fun d => decide ((c.1 + d.1, c.2 + d.2) ∈ s.live_cells)) =
      Spec.neighbourCount (.sparse s) c := by
  rw [List.Perm.countP_eq _ deltas_perm_moore]
  unfold Spec.neighbourCount
  apply List.countP_congr
  intro d _
  simp only [AState.alive, AState.width, AState.height]
  by_cases hmem : (c.1 + d.1, c.2 + d.2) ∈ s.live_cells
  · have hin : inGrid s.width s.height (c.1 + d.1, c.2 + d.2) := by
      obtain ⟨h1, h2, h3, h4⟩ := hs.2.2.1 _ hmem
      exact ⟨h1, h2, h3, h4⟩
    simp [hmem, hin]
  · simp [hmem]

theorem mem_ctc_inner (w h : Int) (a c0 : Coord) (ds : List (Int × Int))
    (acc : List Coord) :
    a ∈ ds.foldl (fun acc2 d =>
        if inGrid w h (c0.1 + d.1, c0.2 + d.2)
        then pyAdd acc2 (c0.1 + d.1, c0.2 + d.2) else acc2) acc ↔
      a ∈ acc ∨ ∃ d ∈ ds, a = (c0.1 + d.1, c0.2 + d.2) ∧ inGrid w h a := by
  induction ds generalizing acc with
  | nil => simp
  | cons d ds ih =>
    rw [List.foldl_cons, ih]
    by_cases hin : inGrid w h (c0.1 + d.1, c0.2 + d.2)
    · rw [if_pos hin, mem_pyAdd]
      constructor
      · rintro ((ha | rfl) | ⟨d2, hd2, rfl, hin2⟩)
        · exact Or.inl ha
        · exact Or.inr ⟨d, List.mem_cons_self d ds, rfl, hin⟩
        · exact Or.inr ⟨d2, List.mem_cons_of_mem d hd2, rfl, hin2⟩
      · rintro (ha | ⟨d2, hd2, rfl, hin2⟩)
        · exact Or.inl (Or.inl ha)
        · rcases List.mem_cons.1 hd2 with rfl | hd2t
          · exact Or.inl (Or.inr rfl)
          · exact Or.inr ⟨d2, hd2t, rfl, hin2⟩
    · rw [if_neg hin]
      constructor
      · rintro (ha | ⟨d2, hd2, rfl, hin2⟩)
        · exact Or.inl ha
        · exact Or.inr ⟨d2, List.mem_cons_of_mem d hd2, rfl, hin2⟩
      · rintro (ha | ⟨d2, hd2, rfl, hin2⟩)
        · exact Or.inl ha
        · rcases List.mem_cons.1 hd2 with rfl | hd2t
          · exact absurd hin2 hin
          · exact Or.inr ⟨d2, hd2t, rfl, hin2⟩

theorem mem_ctc_outer (w h : Int) (a : Coord) (live : List Coord)
    (acc : List Coord) :
    a ∈ live.foldl (fun acc c =>
        SparseEngine.deltas.foldl (fun acc2 d =>
          if inGrid w h (c.1 + d.1, c.2 + d.2)
          then pyAdd acc2 (c.1 + d.1, c.2 + d.2) else acc2) (pyAdd acc c)) acc ↔
      a ∈ acc ∨ a ∈ live ∨ ∃ l ∈ live, ∃ d ∈ SparseEngine.deltas,
        a = (l.1 + d.1, l.2 + d.2) ∧ inGrid w h a := by
  induction live generalizing acc with
  | nil => simp
  | cons p t ih =>
    rw [List.foldl_cons, ih, mem_ctc_inner, mem_pyAdd]
    simp only [List.mem_cons]
    constructor
    · rintro (((ha | heq) | ⟨d, hd, heq, hin⟩) | hrest)
      · exact Or.inl ha
      · exact Or.inr (Or.inl (Or.inl heq))
      · exact Or.inr (Or.inr ⟨p, Or.inl rfl, d, hd, heq, hin⟩)
      · rcases hrest with hmem | ⟨l2, hl2, d2, hd2, heq2, hin2⟩
        · exact Or.inr (Or.inl (Or.inr hmem))
        · exact Or.inr (Or.inr ⟨l2, Or.inr hl2, d2, hd2, heq2, hin2⟩)
    · rintro (ha | hmem | ⟨l2, hl2, d2, hd2, heq2, hin2⟩)
      · exact Or.inl (Or.inl (Or.inl ha))
      · rcases hmem with heq | hmt
        · exact Or.inl (Or.inl (Or.inr heq))
        · exact Or.inr (Or.inl hmt)
      · rcases hl2 with heq | hlt
        · exact Or.inl (Or.inr ⟨d2, hd2, heq ▸ heq2, hin2⟩)
        · exact Or.inr (Or.inr ⟨l2, hlt, d2, hd2, heq2, hin2⟩)

theorem mem_cells_to_check {live : List Coord} {w h : Int} {a : Coord} :
    a ∈ SparseEngine.cells_to_check live w h ↔
      a ∈ live ∨ ∃ l ∈ live, ∃ d ∈ SparseEngine.deltas,
        a = (l.1 + d.1, l.2 + d.2) ∧ inGrid w h a := by
  have hdef : SparseEngine.cells_to_check live w h =
      live.foldl (fun acc c =>
        SparseEngine.deltas.foldl (fun acc2 d =>
          if inGrid w h (c.1 + d.1, c.2 + d.2)
          then pyAdd acc2 (c.1 + d.1, c.2 + d.2) else acc2) (pyAdd acc c)) [] := rfl
  rw [hdef, mem_ctc_outer]
  simp

/-! ### Conditional sparse write loops -/

theorem foldl_setPureS_if_width (R : Coord → Bool) (l : List Coord)
    (init : SparseState) :
    (l.foldl (fun acc c => if R c then acc.setPure c true else acc) init).width =
      init.width := by
  induction l generalizing init with
  | nil => rfl
  | cons x t ih =>
    rw [List.foldl_cons, ih]
    by_cases hr : R x
    · rw [if_pos hr]; rfl
    · rw [if_neg hr]

theorem foldl_setPureS_if_height (R : Coord → Bool) (l : List Coord)
    (init : SparseState) :
    (l.foldl (fun acc c => if R c then acc.setPure c true else acc) init).height =
      init.height := by
  induction l generalizing init with
  | nil => rfl
  | cons x t ih =>
    rw [List.foldl_cons, ih]
    by_cases hr : R x
    · rw [if_pos hr]; rfl
    · rw [if_neg hr]

theorem foldl_setPureS_if_valid (R : Coord → Bool) (l : List Coord)
    (init : SparseState) (hv : init.Valid)
    (hl : ∀ c ∈ l, inGrid init.width init.height c) :
    (l.foldl (fun acc c => if R c then acc.setPure c true else acc) init).Valid := by
  induction l generalizing init with
  | nil => exact hv
  | cons x t ih =>
    rw [List.foldl_cons]
    by_cases hr : R x
    · rw [if_pos hr]
      exact ih (init.setPure x true)
        (SparseState.setPure_validS hv (hl x (List.mem_cons_self x t)) true)
        (fun c hc => hl c (List.mem_cons_of_mem x hc))
    · rw [if_neg hr]
      exact ih init hv (fun c hc => hl c (List.mem_cons_of_mem x hc))

theorem foldl_setPureS_if_mem (R : Coord → Bool) (l : List Coord)
    (init : SparseState) (hv : init.Valid)
    (hl : ∀ c ∈ l, inGrid init.width init.height c) (c' : Coord) :
    c' ∈ (l.foldl (fun acc c => if R c then acc.setPure c true else acc)
        init).live_cells ↔
      (c' ∈ l ∧ R c' = true) ∨ c' ∈ init.live_cells := by
  induction l generalizing init with
  | nil => simp
  | cons x t ih =>
    rw [List.foldl_cons]
    by_cases hr : R x
    · rw [if_pos hr]
      rw [ih (init.setPure x true)
        (SparseState.setPure_validS hv (hl x (List.mem_cons_self x t)) true)
        (fun c hc => hl c (List.mem_cons_of_mem x hc))]
      have hmem := @SparseState.mem_setPure _ hv x c' true
      by_cases heq : c' = x
      · simp only [heq] at hmem ⊢
        simp [hmem, hr]
      · simp only [if_neg heq] at hmem
        rw [hmem]
        constructor
        · rintro (⟨hmt, hrc⟩ | hin)
          · exact Or.inl ⟨List.mem_cons_of_mem x hmt, hrc⟩
          · exact Or.inr hin
        · rintro (⟨hmc, hrc⟩ | hin)
          · rcases List.mem_cons.1 hmc with rfl | hmt
            · exact absurd rfl heq
            · exact Or.inl ⟨hmt, hrc⟩
          · exact Or.inr hin
    · rw [if_neg hr]
      rw [ih init hv (fun c hc => hl c (List.mem_cons_of_mem x hc))]
      constructor
      · rintro (⟨hmt, hrc⟩ | hin)
        · exact Or.inl ⟨List.mem_cons_of_mem x hmt, hrc⟩
        · exact Or.inr hin
      · rintro (⟨hmc, hrc⟩ | hin)
        · rcases List.mem_cons.1 hmc with rfl | hmt
          · exact absurd hrc (by simpa using hr)
          · exact Or.inl ⟨hmt, hrc⟩
        · exact Or.inr hin

/-! ### Sparse state inversion lemmas and reachability invariant -/

theorem SparseState.make_ok_inv {w h : Int} {s : SparseState}
    (hmk : SparseState.make w h = .ok s) : 0 < w ∧ 0 < h ∧ s = ⟨w, h, []⟩ := by
  by_cases hcond : w ≤ 0 ∨ h ≤ 0
  · rw [SparseState.make_errS hcond] at hmk
    exact absurd hmk (by simp)
  · push_neg at hcond
    rw [SparseState.make_okS (by omega) (by omega)] at hmk
    injection hmk with h2
    exact ⟨by omega, by omega, h2.symm⟩

theorem SparseState.setItem_ok_inv {s : SparseState} {c : Coord} {v : Bool}
    {s2 : SparseState} (h : s.setItem c v = .ok s2) :
    inGrid s.width s.height c ∧ s2 = s.setPure c v := by
  by_cases hc : inGrid s.width s.height c
  · rw [SparseState.setItem_okS v hc] at h
    injection h with h2
    exact ⟨hc, h2.symm⟩
  · rw [SparseState.setItem_errS v hc] at h
    exact absurd h (by simp)

theorem foldlM_setItemS_valid (l : List Coord) (init : SparseState)
    (hv : init.Valid) {res : SparseState}
    (h : l.foldlM (fun st c => st.setItem c true) init = .ok res) : res.Valid := by
  induction l generalizing init with
  | nil =>
    rw [List.foldlM_nil] at h
    injection h with h2
    rw [← h2]
    exact hv
  | cons x t ih =>
    rw [List.foldlM_cons] at h
    cases hset : init.setItem x true with
    | error e =>
      rw [hset, ebind_err] at h
      exact absurd h (by simp)
    | ok st1 =>
      rw [hset, ebind_ok] at h
      obtain ⟨hin, heq⟩ := SparseState.setItem_ok_inv hset
      subst heq
      exact ih _ (SparseState.setPure_validS hv hin true) h

theorem SparseState.from_state_valid {x : AState} {s : SparseState}
    (h : SparseState.from_state x = .ok s) : s.Valid := by
  simp only [SparseState.from_state] at h
  cases hmk : SparseState.make x.width x.height with
  | error e =>
    rw [hmk, ebind_err] at h
    exact absurd h (by simp)
  | ok new =>
    rw [hmk, ebind_ok] at h
    obtain ⟨hw, hh, heq⟩ := SparseState.make_ok_inv hmk
    subst heq
    exact foldlM_setItemS_valid _ _ (SparseState.make_valid hw hh) h

/-- Every sparse state reachable through the constructor, setitem and
from_state is well formed (dimensions positive, all live cells in
bounds, no duplicates). -/
theorem sparse_reachable_valid {s : SparseState} (h : SparseReachable s) :
    s.Valid := by
  induction h with
  | make w h s hmk =>
    obtain ⟨hw, hh, heq⟩ := SparseState.make_ok_inv hmk
    subst heq
    exact SparseState.make_valid hw hh
  | set s c v s2 hr hset ih =>
    obtain ⟨hin, heq⟩ := SparseState.setItem_ok_inv hset
    subst heq
    exact SparseState.setPure_validS ih hin v
  | from_state x s hfs => exact SparseState.from_state_valid hfs

/-- C10: every reachable SparseState keeps its live cells within bounds,
and in consequence the sparse engine's unclipped membership counting
agrees with the spec's bounds-clipped neighbour count at every cell. -/
theorem sparse_invariant_counts :
    (∀ s : SparseState, SparseReachable s →
      ∀ c ∈ s.live_cells, inGrid s.width s.height c) ∧
    (∀ s : SparseState, SparseReachable s → ∀ c : Coord,
      SparseEngine.deltas.countP
          (fun d => decide ((c.1 + d.1, c.2 + d.2) ∈ s.live_cells)) =
        Spec.neighbourCount (.sparse s) c) := by
  constructor
  · intro s hr c hc
    obtain ⟨h1, h2, h3, h4⟩ := (sparse_reachable_valid hr).2.2.1 c hc
    exact ⟨h1, h2, h3, h4⟩
  · intro s hr c
    exact sparse_count_eq s (sparse_reachable_valid hr) c

/-- Witness for C10 at a concrete reachable sparse state. -/
theorem sparse_invariant_counts_witness :
    inGrid (3 : Int) 3 ((1 : Int), (1 : Int)) ∧
    SparseEngine.deltas.countP
        (fun d => decide (((1 : Int) + d.1, (2 : Int) + d.2) ∈
          ([((1 : Int), (1 : Int))] : List Coord))) =
      Spec.neighbourCount (.sparse ⟨3, 3, [(1, 1)]⟩) (1, 2) := by
  have hr : SparseReachable ⟨3, 3, [((1 : Int), (1 : Int))]⟩ :=
    SparseReachable.set ⟨3, 3, []⟩ (1, 1) true _
      (SparseReachable.make 3 3 ⟨3, 3, []⟩ (by decide)) (by decide)
  constructor
  · exact sparse_invariant_counts.1 ⟨3, 3, [(1, 1)]⟩ hr (1, 1) (by decide)
  · exact sparse_invariant_counts.2 ⟨3, 3, [(1, 1)]⟩ hr (1, 2)

/-! ### Sparse engine full characterisation -/

/-- A cell outside the candidate frontier set is dead in the next
generation: it is not live and has no live neighbour. -/
theorem frontier_complete (sp0 : SparseState) (_hv : sp0.Valid) {c : Coord}
    (hnot : c ∉ SparseEngine.cells_to_check sp0.live_cells sp0.width sp0.height)
    (hc : inGrid sp0.width sp0.height c) :
    Spec.nextAlive (.sparse sp0) c = false := by
  have hnl : c ∉ sp0.live_cells := fun hmem => hnot (mem_cells_to_check.2 (Or.inl hmem))
  have hcount : Spec.neighbourCount (.sparse sp0) c = 0 := by
    unfold Spec.neighbourCount
    rw [List.countP_eq_zero]
    intro d hd
    by_cases hmem : (c.1 + d.1, c.2 + d.2) ∈ sp0.live_cells
    · exfalso
      apply hnot
      apply mem_cells_to_check.2
      refine Or.inr ⟨(c.1 + d.1, c.2 + d.2), hmem, (-d.1, -d.2), moore_neg_mem d hd, ?_, hc⟩
      rw [Prod.ext_iff]
      constructor <;> dsimp only <;> ring
    · simp [AState.alive, hmem]
  simp [Spec.nextAlive, hcount, AState.alive, hnl]

/-- optimize_state with sparse preference yields a valid sparse state
with the dimensions and in-bounds content of the input. -/
theorem optimize_sparse_ok (s : AState) (hs : s.Valid) :
    ∃ sp0 : SparseState, optimize_state (some .sparse) s = .ok (.sparse sp0) ∧
      sp0.Valid ∧ sp0.width = s.width ∧ sp0.height = s.height ∧
      (∀ c, inGrid s.width s.height c → (AState.sparse sp0).alive c = s.alive c) := by
  cases s with
  | sparse sp =>
    refine ⟨sp, rfl, hs, rfl, rfl, fun c _ => rfl⟩
  | dense d =>
    obtain ⟨sp0, hok, hv, hw, hh, hmem⟩ := SparseState.from_state_okS (.dense d) hs
    refine ⟨sp0, ?_, hv, hw, hh, ?_⟩
    · show (SparseState.from_state (.dense d)).map AState.sparse = _
      rw [hok]
      rfl
    · intro c hc
      show decide (c ∈ sp0.live_cells) = (AState.dense d).alive c
      have h1 : c ∈ sp0.live_cells ↔ c ∈ (AState.dense d).get_live_cells := hmem c
      rw [AState.mem_get_live_cellsA hs c] at h1
      by_cases halive : (AState.dense d).alive c = true
      · simp [h1, hc, halive]
      · have hnot : ¬ c ∈ sp0.live_cells := fun hcon => halive (h1.1 hcon).2
        have hfalse : (AState.dense d).alive c = false := by
          cases hcase : (AState.dense d).alive c
          · rfl
          · exact absurd hcase halive
        simp [hnot, hfalse]

/-- Full characterisation of SparseEngine.next_state on a valid state:
it succeeds, produces a sparse state of the same dimensions whose live
set is exactly the in-bounds cells the spec rule marks alive. -/
theorem SparseEngine.next_state_okSp (s : AState) (hs : s.Valid) :
    ∃ sp : SparseState, SparseEngine.next_state s = .ok (.sparse sp) ∧ sp.Valid ∧
      sp.width = s.width ∧ sp.height = s.height ∧
      ∀ c, (c ∈ sp.live_cells ↔
        inGrid s.width s.height c ∧ Spec.nextAlive s c = true) := by
  obtain ⟨sp0, hopt, hv0, hw0, hh0, halive0⟩ := optimize_sparse_ok s hs
  have hwpos : 0 < sp0.width := by rw [hw0]; exact AState.width_pos hs
  have hhpos : 0 < sp0.height := by rw [hh0]; exact AState.height_pos hs
  have hcong : ∀ c, inGrid s.width s.height c →
      Spec.nextAlive (.sparse sp0) c = Spec.nextAlive s c := by
    intro c hc
    exact @Spec.nextAlive_congr s (AState.sparse sp0) hw0 hh0 halive0 c hc
  have hunfold : SparseEngine.next_state s =
      (SparseState.make sp0.width sp0.height >>= fun init =>
        (SparseEngine.cells_to_check sp0.live_cells sp0.width sp0.height).foldlM
          (fun st c =>
            if decide (c ∈ sp0.live_cells) = true then
              if SparseEngine.deltas.countP
                  (fun d => decide ((c.1 + d.1, c.2 + d.2) ∈ sp0.live_cells)) = 2 ∨
                SparseEngine.deltas.countP
                  (fun d => decide ((c.1 + d.1, c.2 + d.2) ∈ sp0.live_cells)) = 3
              then st.setItem c true else pure st
            else
              if SparseEngine.deltas.countP
                  (fun d => decide ((c.1 + d.1, c.2 + d.2) ∈ sp0.live_cells)) = 3
              then st.setItem c true else pure st) init >>=
          fun result => pure (AState.sparse result)) := by
    simp only [SparseEngine.next_state]
    rw [hopt, ebind_ok]
    rfl
  rw [hunfold, SparseState.make_okS hwpos hhpos, ebind_ok]
  have hctcin : ∀ c ∈ SparseEngine.cells_to_check sp0.live_cells sp0.width sp0.height,
      inGrid sp0.width sp0.height c := by
    intro c hc
    rcases mem_cells_to_check.1 hc with hmem | ⟨l, hl, d, hd, heq, hin⟩
    · obtain ⟨h1, h2, h3, h4⟩ := hv0.2.2.1 c hmem
      exact ⟨h1, h2, h3, h4⟩
    · exact hin
  have hfold := foldlM_eq_foldl
    (fun acc : SparseState =>
      acc.Valid ∧ acc.width = sp0.width ∧ acc.height = sp0.height)
    (SparseEngine.cells_to_check sp0.live_cells sp0.width sp0.height)
    (fun st c =>
      if decide (c ∈ sp0.live_cells) = true then
        if SparseEngine.deltas.countP
            (fun d => decide ((c.1 + d.1, c.2 + d.2) ∈ sp0.live_cells)) = 2 ∨
          SparseEngine.deltas.countP
            (fun d => decide ((c.1 + d.1, c.2 + d.2) ∈ sp0.live_cells)) = 3
        then st.setItem c true else pure st
      else
        if SparseEngine.deltas.countP
            (fun d => decide ((c.1 + d.1, c.2 + d.2) ∈ sp0.live_cells)) = 3
        then st.setItem c true else pure st)
    (fun st c => if Spec.nextAlive (.sparse sp0) c then st.setPure c true else st)
    ⟨sp0.width, sp0.height, []⟩
    ⟨SparseState.make_valid hwpos hhpos, rfl, rfl⟩ ?_
  · obtain ⟨hfoldeq, hPfin⟩ := hfold
    rw [hfoldeq, ebind_ok, epure_ok]
    refine ⟨_, rfl, hPfin.1, by rw [hPfin.2.1, hw0], by rw [hPfin.2.2, hh0], ?_⟩
    intro c
    have hmem := foldl_setPureS_if_mem (fun c => Spec.nextAlive (.sparse sp0) c)
      (SparseEngine.cells_to_check sp0.live_cells sp0.width sp0.height)
      ⟨sp0.width, sp0.height, []⟩ (SparseState.make_valid hwpos hhpos) hctcin c
    rw [hmem]
    simp only [List.not_mem_nil, or_false]
    constructor
    · rintro ⟨hctc, hrule⟩
      have hcin : inGrid sp0.width sp0.height c := hctcin c hctc
      have hcin2 : inGrid s.width s.height c := by
        rw [← hw0, ← hh0]
        exact hcin
      exact ⟨hcin2, by rw [← hcong c hcin2]; exact hrule⟩
    · rintro ⟨hcin2, hrule⟩
      have hcin : inGrid sp0.width sp0.height c := by
        rw [hw0, hh0]
        exact hcin2
      have hrule0 : Spec.nextAlive (.sparse sp0) c = true := by
        rw [hcong c hcin2]
        exact hrule
      by_cases hctc : c ∈ SparseEngine.cells_to_check sp0.live_cells sp0.width sp0.height
      · exact ⟨hctc, hrule0⟩
      · exact absurd hrule0 (by rw [frontier_complete sp0 hv0 hctc hcin]; simp)
  · intro b a hPb ha
    have hain : inGrid sp0.width sp0.height a := hctcin a ha
    have hab : inGrid b.width b.height a := by
      rw [hPb.2.1, hPb.2.2]
      exact hain
    have hcnt : SparseEngine.deltas.countP
        (fun d => decide ((a.1 + d.1, a.2 + d.2) ∈ sp0.live_cells)) =
        Spec.neighbourCount (.sparse sp0) a := sparse_count_eq sp0 hv0 a
    constructor
    · show (if decide (a ∈ sp0.live_cells) = true then
          if SparseEngine.deltas.countP
              (fun d => decide ((a.1 + d.1, a.2 + d.2) ∈ sp0.live_cells)) = 2 ∨
            SparseEngine.deltas.countP
              (fun d => decide ((a.1 + d.1, a.2 + d.2) ∈ sp0.live_cells)) = 3
          then b.setItem a true else pure b
        else
          if SparseEngine.deltas.countP
              (fun d => decide ((a.1 + d.1, a.2 + d.2) ∈ sp0.live_cells)) = 3
          then b.setItem a true else pure b) =
        .ok (if Spec.nextAlive (.sparse sp0) a then b.setPure a true else b)
      rw [hcnt]
      by_cases hal : a ∈ sp0.live_cells
      · rw [if_pos (show decide (a ∈ sp0.live_cells) = true by simp [hal])]
        have halive : (AState.sparse sp0).alive a = true := by simp [AState.alive, hal]
        by_cases h23 : Spec.neighbourCount (.sparse sp0) a = 2 ∨
            Spec.neighbourCount (.sparse sp0) a = 3
        · rw [if_pos h23, SparseState.setItem_okS true hab]
          have hna : Spec.nextAlive (.sparse sp0) a = true := by
            simp [Spec.nextAlive, halive, h23]
          rw [hna]
          simp
        · rw [if_neg h23, epure_ok]
          have hna : Spec.nextAlive (.sparse sp0) a = false := by
            simp only [Spec.nextAlive, halive, if_pos]
            simpa using h23
          rw [hna]
          simp
      · rw [if_neg (show ¬ decide (a ∈ sp0.live_cells) = true by simp [hal])]
        have halive : (AState.sparse sp0).alive a = false := by simp [AState.alive, hal]
        by_cases h3 : Spec.neighbourCount (.sparse sp0) a = 3
        · rw [if_pos h3, SparseState.setItem_okS true hab]
          have hna : Spec.nextAlive (.sparse sp0) a = true := by
            simp [Spec.nextAlive, halive, h3]
          rw [hna]
          simp
        · rw [if_neg h3, epure_ok]
          have hna : Spec.nextAlive (.sparse sp0) a = false := by
            simp only [Spec.nextAlive, halive, Bool.false_eq_true, if_neg]
            simpa using h3
          rw [hna]
          simp
    · show ((if Spec.nextAlive (.sparse sp0) a then b.setPure a true else b).Valid ∧
        (if Spec.nextAlive (.sparse sp0) a then b.setPure a true else b).width = sp0.width ∧
        (if Spec.nextAlive (.sparse sp0) a then b.setPure a true else b).height = sp0.height)
      by_cases hrule : Spec.nextAlive (.sparse sp0) a = true
      · have hred : (if Spec.nextAlive (.sparse sp0) a then b.setPure a true else b) =
            b.setPure a true := by
          rw [hrule]
          simp
        rw [hred]
        exact ⟨SparseState.setPure_validS hPb.1 hab true, hPb.2.1, hPb.2.2⟩
      · have hred : (if Spec.nextAlive (.sparse sp0) a then b.setPure a true else b) = b := by
          rw [if_neg (by simpa using hrule)]
        rw [hred]
        exact hPb

/-! ### Numpy engine: grid, padding and convolution lemmas -/

theorem getD_map_range {α : Type} (n i : Nat) (f : Nat → α) (d : α) :
    ((List.range n).map f).getD i d = if i < n then f i else d := by
  rw [List.getD_eq_getElem?_getD]
  by_cases h : i < n
  · rw [List.getElem?_map, List.getElem?_range h]
    simp [h]
  · rw [List.getElem?_map]
    rw [List.getElem?_eq_none (by simpa using h)]
    simp [h]

theorem headD_map_range {α : Type} (n : Nat) (f : Nat → α) (d : α) (hn : 0 < n) :
    ((List.range n).map f).headD d = f 0 := by
  cases n with
  | zero => omega
  | succ m =>
    rw [List.range_succ_eq_map]
    simp

theorem countP_cast_sum (l : List (Int × Int)) (p : Int × Int → Bool) :
    ((l.countP p : Nat) : Int) =
      (l.map (fun d => if p d = true then (1 : Int) else 0)).sum := by
  induction l with
  | nil => simp
  | cons d t ih =>
    rw [List.countP_cons, List.map_cons, List.sum_cons]
    by_cases hp : p d = true
    · simp only [hp, if_pos]
      push_cast [ih]
      ring
    · simp only [hp, if_neg]
      push_cast [ih]
      simp [hp]

/-- optimize_state with dense preference yields a valid dense state with
the dimensions and in-bounds content of the input. -/
theorem optimize_dense_ok (s : AState) (hs : s.Valid) :
    ∃ d0 : DenseState, optimize_state (some .dense) s = .ok (.dense d0) ∧
      d0.Valid ∧ d0.width = s.width ∧ d0.height = s.height ∧
      (∀ c, inGrid s.width s.height c → (AState.dense d0).alive c = s.alive c) := by
  cases s with
  | dense d =>
    refine ⟨d, rfl, hs, rfl, rfl, fun c _ => rfl⟩
  | sparse sp =>
    obtain ⟨d0, hok, hv, hw, hh, hmem⟩ := DenseState.from_state_okD (.sparse sp) hs
    refine ⟨d0, ?_, hv, hw, hh, ?_⟩
    · show (DenseState.from_state (.sparse sp)).map AState.dense = _
      rw [hok]
      rfl
    · intro c hc
      show d0.cellAt c = (AState.sparse sp).alive c
      have h1 := hmem c
      rw [DenseState.mem_get_live_cellsD c,
        AState.mem_get_live_cellsA hs c] at h1
      have hcd : inGrid d0.width d0.height c := by
        rw [hw, hh]
        exact hc
      by_cases halive : (AState.sparse sp).alive c = true
      · rw [halive]
        exact (h1.2 ⟨hc, halive⟩).2
      · have hfalse : (AState.sparse sp).alive c = false := by
          cases hcase : (AState.sparse sp).alive c
          · rfl
          · exact absurd hcase halive
        rw [hfalse]
        cases hcase : d0.cellAt c
        · rfl
        · exact absurd (h1.1 ⟨hcd, hcase⟩).2 halive

theorem NumpyEngine.gridOf_length (d : DenseState) :
    (NumpyEngine.gridOf d).length = d.height.toNat := by
  simp [NumpyEngine.gridOf]

theorem NumpyEngine.gridOf_head (d : DenseState) (hpos : 0 < d.height) :
    ((NumpyEngine.gridOf d).headD []).length = d.width.toNat := by
  unfold NumpyEngine.gridOf
  rw [headD_map_range _ _ _ (by omega)]
  simp

/-- The grid-building mapM of NumpyEngine.next_state evaluates to the
pure 0/1 matrix. -/
theorem NumpyEngine.grid_mapM (d : DenseState) (hv : d.Valid) :
    (List.range (AState.dense d).height.toNat).mapM (fun (y : Nat) =>
      (List.range (AState.dense d).width.toNat).mapM (fun (x : Nat) =>
        ((AState.dense d).getItem ((x : Int), (y : Int))).map
          (fun b => if b then (1 : Int) else 0))) = .ok (NumpyEngine.gridOf d) := by
  apply mapM_eq_map
  intro y hy
  apply mapM_eq_map
  intro x hx
  rw [List.mem_range] at hy hx
  have hy2 : y < d.height.toNat := hy
  have hx2 : x < d.width.toNat := hx
  have hin : inGrid (AState.dense d).width (AState.dense d).height
      ((x : Int), (y : Int)) := by
    show inGrid d.width d.height ((x : Int), (y : Int))
    refine ⟨?_, ?_, ?_, ?_⟩ <;> dsimp only <;> omega
  rw [AState.getItem_okA (show (AState.dense d).Valid from hv) hin, emap_ok]
  rfl

theorem NumpyEngine.padAt_gridOf (d : DenseState) (hv : d.Valid) (Y X : Int) :
    NumpyEngine.padAt (NumpyEngine.gridOf d) Y X =
      if inGrid d.width d.height (X, Y) ∧ d.cellAt (X, Y) = true then 1 else 0 := by
  unfold NumpyEngine.padAt
  rw [NumpyEngine.gridOf_length, NumpyEngine.gridOf_head d hv.2.1]
  have hwpos : 0 < d.width := hv.1
  have hhpos : 0 < d.height := hv.2.1
  by_cases hin : inGrid d.width d.height (X, Y)
  · obtain ⟨hX0, hXw, hY0, hYh⟩ := hin
    rw [if_pos (by refine ⟨?_, ?_, ?_, ?_⟩ <;> omega)]
    unfold NumpyEngine.gridOf
    rw [getD_map_range, if_pos (by omega), getD_map_range, if_pos (by omega)]
    have hc : ((X.toNat : Int), (Y.toNat : Int)) = ((X : Int), (Y : Int)) := by
      rw [Prod.ext_iff]
      constructor <;> dsimp only <;> omega
    rw [hc]
    by_cases hcell : d.cellAt (X, Y) = true
    · rw [if_pos hcell, if_pos ⟨⟨hX0, hXw, hY0, hYh⟩, hcell⟩]
    · rw [if_neg (by simpa using hcell), if_neg (by
        rintro ⟨_, hcon⟩
        exact hcell hcon)]
  · rw [if_neg (by
      rintro ⟨h1, h2, h3, h4⟩
      exact hin ⟨by omega, by omega, by omega, by omega⟩),
      if_neg (by
        rintro ⟨hcon, _⟩
        exact hin hcon)]

/-- The convolution entry at an in-bounds cell is exactly the spec's
clipped neighbour count. -/
theorem NumpyEngine.conv_entry (d : DenseState) (hv : d.Valid) (x y : Nat)
    (hx : x < d.width.toNat) (hy : y < d.height.toNat) :
    ((NumpyEngine.convolve2d_same (NumpyEngine.gridOf d) NumpyEngine.kernel).getD y
        []).getD x 0 =
      (Spec.neighbourCount (.dense d) ((x : Int), (y : Int)) : Int) := by
  unfold NumpyEngine.convolve2d_same
  rw [NumpyEngine.gridOf_length, NumpyEngine.gridOf_head d hv.2.1]
  rw [getD_map_range, if_pos hy, getD_map_range, if_pos hx]
  have h3 : List.range 3 = [0, 1, 2] := rfl
  rw [h3]
  have k00 : (NumpyEngine.kernel.getD 0 []).getD 0 0 = 1 := rfl
  have k01 : (NumpyEngine.kernel.getD 0 []).getD 1 0 = 1 := rfl
  have k02 : (NumpyEngine.kernel.getD 0 []).getD 2 0 = 1 := rfl
  have k10 : (NumpyEngine.kernel.getD 1 []).getD 0 0 = 1 := rfl
  have k11 : (NumpyEngine.kernel.getD 1 []).getD 1 0 = 0 := rfl
  have k12 : (NumpyEngine.kernel.getD 1 []).getD 2 0 = 1 := rfl
  have k20 : (NumpyEngine.kernel.getD 2 []).getD 0 0 = 1 := rfl
  have k21 : (NumpyEngine.kernel.getD 2 []).getD 1 0 = 1 := rfl
  have k22 : (NumpyEngine.kernel.getD 2 []).getD 2 0 = 1 := rfl
  simp only [List.flatMap_cons, List.flatMap_nil, List.map_cons, List.map_nil,
    List.append_nil, List.sum_append, List.sum_cons, List.sum_nil,
    k00, k01, k02, k10, k11, k12, k20, k21, k22, one_mul, zero_mul,
    Nat.cast_zero, Nat.cast_one, Nat.cast_ofNat]
  simp only [NumpyEngine.padAt_gridOf d hv]
  rw [Spec.neighbourCount, countP_cast_sum]
  simp only [Spec.mooreDeltas, List.map_cons, List.map_nil, List.sum_cons,
    List.sum_nil, Bool.and_eq_true, decide_eq_true_eq, AState.alive,
    AState.width, AState.height]
  have e1 : ∀ z : Int, z - 0 + 1 = z + 1 := fun z => by ring
  have e2 : ∀ z : Int, z - 1 + 1 = z := fun z => by ring
  have e3 : ∀ z : Int, z - 2 + 1 = z - 1 := fun z => by ring
  have e4 : ∀ z : Int, z + -1 = z - 1 := fun z => by ring
  simp only [e1, e2, e3, e4, add_zero]
  ring

/-- The entry of the pure rule matrix at an in-bounds cell is the spec
rule value. -/
theorem NumpyEngine.next_gridOf_entry (d : DenseState) (hv : d.Valid) {c : Coord}
    (hc : inGrid d.width d.height c) :
    ((NumpyEngine.next_gridOf d).getD c.2.toNat []).getD c.1.toNat false =
      Spec.nextAlive (.dense d) c := by
  obtain ⟨hx0, hxw, hy0, hyh⟩ := hc
  unfold NumpyEngine.next_gridOf
  rw [getD_map_range, if_pos (by omega), getD_map_range, if_pos (by omega)]
  have hcpair : ((c.1.toNat : Int), (c.2.toNat : Int)) = c := by
    rw [Prod.ext_iff]
    constructor <;> dsimp only <;> omega
  have hgrid : ((NumpyEngine.gridOf d).getD c.2.toNat []).getD c.1.toNat 0 =
      if d.cellAt c = true then 1 else 0 := by
    unfold NumpyEngine.gridOf
    rw [getD_map_range, if_pos (by omega), getD_map_range, if_pos (by omega), hcpair]
  have hconv := NumpyEngine.conv_entry d hv c.1.toNat c.2.toNat (by omega) (by omega)
  rw [hcpair] at hconv
  rw [hgrid, hconv]
  simp only [Spec.nextAlive, AState.alive]
  by_cases hcell : d.cellAt c = true
  · rw [if_pos (by rw [hcell])]
    rw [if_pos hcell]
    apply decide_eq_decide.2
    constructor
    · rintro (⟨_, h23⟩ | ⟨hcon, _⟩)
      · omega
      · exact absurd hcon (by omega)
    · intro h23
      refine Or.inl ⟨rfl, ?_⟩
      omega
  · have hfalse : d.cellAt c = false := by
      cases hcase : d.cellAt c
      · rfl
      · exact absurd hcase hcell
    rw [if_neg hcell, if_neg (by rw [hfalse]; simp)]
    apply decide_eq_decide.2
    constructor
    · rintro (⟨hcon, _⟩ | ⟨_, h3⟩)
      · exact absurd hcon (by omega)
      · omega
    · intro h3
      refine Or.inr ⟨rfl, ?_⟩
      omega

/-- Full characterisation of NumpyEngine.next_state on a valid state: it
succeeds, produces a dense state of the same dimensions, and every
in-bounds cell holds the spec rule value. -/
theorem NumpyEngine.next_state_okN (s : AState) (hs : s.Valid) :
    ∃ dn : DenseState, NumpyEngine.next_state s = .ok (.dense dn) ∧ dn.Valid ∧
      dn.width = s.width ∧ dn.height = s.height ∧
      ∀ c, inGrid s.width s.height c → dn.cellAt c = Spec.nextAlive s c := by
  obtain ⟨d0, hopt, hv0, hw0, hh0, halive0⟩ := optimize_dense_ok s hs
  have hcong : ∀ c, inGrid s.width s.height c →
      Spec.nextAlive (.dense d0) c = Spec.nextAlive s c := by
    intro c hc
    exact @Spec.nextAlive_congr s (AState.dense d0) hw0 hh0 halive0 c hc
  simp only [NumpyEngine.next_state]
  rw [hopt, ebind_ok, NumpyEngine.grid_mapM d0 hv0, ebind_ok]
  show ∃ dn : DenseState,
    (DenseState.make d0.width d0.height >>= fun init =>
      ((List.range d0.height.toNat).foldlM (fun acc (y : Nat) =>
        (List.range d0.width.toNat).foldlM (fun acc2 (x : Nat) =>
          acc2.setItem ((x : Int), (y : Int))
            (((NumpyEngine.next_gridOf d0).getD y []).getD x false)) acc) init) >>=
        fun result => pure (AState.dense result)) = .ok (.dense dn) ∧ dn.Valid ∧
      dn.width = s.width ∧ dn.height = s.height ∧
      ∀ c, inGrid s.width s.height c → dn.cellAt c = Spec.nextAlive s c
  obtain ⟨init, hmake, hvalid, hw, hh, hcells⟩ :=
    DenseState.make_okD hv0.1 hv0.2.1
  rw [hmake, ebind_ok]
  have hnest : (List.range d0.height.toNat).foldlM (fun acc (y : Nat) =>
      (List.range d0.width.toNat).foldlM (fun acc2 (x : Nat) =>
        acc2.setItem ((x : Int), (y : Int))
          (((NumpyEngine.next_gridOf d0).getD y []).getD x false)) acc) init =
      (coordList d0.width d0.height).foldlM
        (fun acc2 c => acc2.setItem c
          (((NumpyEngine.next_gridOf d0).getD c.2.toNat []).getD c.1.toNat false))
        init :=
    nested_foldlM_coordList d0.width d0.height
      (fun acc2 c => acc2.setItem c
        (((NumpyEngine.next_gridOf d0).getD c.2.toNat []).getD c.1.toNat false))
      init
  rw [hnest]
  have hfold := foldlM_eq_foldl
    (fun acc : DenseState => acc.Valid ∧ acc.width = d0.width ∧ acc.height = d0.height)
    (coordList d0.width d0.height)
    (fun acc2 c => acc2.setItem c
      (((NumpyEngine.next_gridOf d0).getD c.2.toNat []).getD c.1.toNat false))
    (fun acc2 c => acc2.setPure c
      (((NumpyEngine.next_gridOf d0).getD c.2.toNat []).getD c.1.toNat false))
    init ⟨hvalid, hw, hh⟩ ?_
  · obtain ⟨hfoldeq, hPfin⟩ := hfold
    rw [hfoldeq, ebind_ok, epure_ok]
    refine ⟨_, rfl, hPfin.1, by rw [hPfin.2.1, hw0], by rw [hPfin.2.2, hh0], ?_⟩
    intro c hcin
    have hcin0 : inGrid d0.width d0.height c := by
      rw [hw0, hh0]
      exact hcin
    rw [foldl_setPure_cellAt (coordList d0.width d0.height) _ init hw hh hvalid
      (fun a ha => mem_coordList.1 ha) hcin0]
    rw [if_pos (mem_coordList.2 hcin0)]
    rw [NumpyEngine.next_gridOf_entry d0 hv0 hcin0]
    exact hcong c hcin
  · intro b a hPb ha
    have hain : inGrid d0.width d0.height a := mem_coordList.1 ha
    have hab : inGrid b.width b.height a := by
      rw [hPb.2.1, hPb.2.2]
      exact hain
    refine ⟨DenseState.setItem_okD _ hab, DenseState.setPure_validD hPb.1 hab _,
      by rw [DenseState.setPure_widthD]; exact hPb.2.1,
      by rw [DenseState.setPure_heightD]; exact hPb.2.2⟩

/-! ### Claim C1: the three engines are equivalent -/

/-- C1: on every valid state of either representation, all three engines
succeed and produce states with identical live-cell sets.  (The loop
engine's output is the legacy dense State class, whose live-cell set is
the dense scan.) -/
theorem engines_equivalent (s : AState) (hs : s.Valid) :
    ∃ (a b : DenseState) (c2 : SparseState),
      LoopEngine.next_state s = .ok (.dense a) ∧
      NumpyEngine.next_state s = .ok (.dense b) ∧
      SparseEngine.next_state s = .ok (.sparse c2) ∧
      a.get_live_cells.toFinset = b.get_live_cells.toFinset ∧
      b.get_live_cells.toFinset = c2.get_live_cells.toFinset := by
  obtain ⟨a, hoka, hva, hwa, hha, hcella⟩ := LoopEngine.next_state_okL s hs
  obtain ⟨b, hokb, hvb, hwb, hhb, hcellb⟩ := NumpyEngine.next_state_okN s hs
  obtain ⟨c2, hokc, hvc, hwc, hhc, hmemc⟩ := SparseEngine.next_state_okSp s hs
  have hdense : ∀ (d : DenseState), d.Valid → d.width = s.width → d.height = s.height →
      (∀ c, inGrid s.width s.height c → d.cellAt c = Spec.nextAlive s c) →
      ∀ c, c ∈ d.get_live_cells ↔
        (inGrid s.width s.height c ∧ Spec.nextAlive s c = true) := by
    intro d _ hwd hhd hcelld c
    rw [DenseState.mem_get_live_cellsD]
    constructor
    · rintro ⟨hin, hcell⟩
      have hin2 : inGrid s.width s.height c := by
        rw [← hwd, ← hhd]
        exact hin
      exact ⟨hin2, by rw [← hcelld c hin2]; exact hcell⟩
    · rintro ⟨hin2, hrule⟩
      have hin : inGrid d.width d.height c := by
        rw [hwd, hhd]
        exact hin2
      exact ⟨hin, by rw [hcelld c hin2]; exact hrule⟩
  have hmema := hdense a hva hwa hha hcella
  have hmemb := hdense b hvb hwb hhb hcellb
  refine ⟨a, b, c2, hoka, hokb, hokc, ?_, ?_⟩
  · apply Finset.ext
    intro c
    simp only [List.mem_toFinset]
    rw [hmema c, hmemb c]
  · apply Finset.ext
    intro c
    simp only [List.mem_toFinset]
    rw [hmemb c]
    exact (hmemc c).symm

/-- Witness for C1 at a concrete sparse input. -/
theorem engines_equivalent_witness :
    ∃ (a b : DenseState) (c2 : SparseState),
      LoopEngine.next_state (AState.sparse ⟨2, 2, [(0, 0)]⟩) = .ok (.dense a) ∧
      NumpyEngine.next_state (AState.sparse ⟨2, 2, [(0, 0)]⟩) = .ok (.dense b) ∧
      SparseEngine.next_state (AState.sparse ⟨2, 2, [(0, 0)]⟩) = .ok (.sparse c2) ∧
      a.get_live_cells.toFinset = b.get_live_cells.toFinset ∧
      b.get_live_cells.toFinset = c2.get_live_cells.toFinset :=
  engines_equivalent (AState.sparse ⟨2, 2, [(0, 0)]⟩) (by decide)

/-! ### Claim C9: the engines do not mutate their input -/

theorem ebind_pure {α : Type} (F : Except Err α) : F >>= pure = F := by
  cases F <;> rfl

theorem ebind_congr {α β : Type} (F : Except Err α) (f g : α → Except Err β)
    (h : ∀ a, f a = g a) : F >>= f = F >>= g := by
  cases F with
  | error e => rfl
  | ok a => exact h a

theorem ebind_map_out {α β γ : Type} (F : Except Err α) (K : α → Except Err β)
    (f : β → γ) : (F >>= fun a => (K a).map f) = (F >>= K).map f := by
  cases F <;> rfl

theorem emap_bind {α β γ : Type} (F : Except Err α) (f : α → β)
    (g : β → Except Err γ) : (F.map f) >>= g = F >>= fun a => g (f a) := by
  cases F <;> rfl

theorem bind_map_pair {α β γ : Type} (F : Except Err α) (g : α → β) (st : γ) :
    (F >>= fun a => pure ((st, g a) : γ × β)) =
      (F >>= fun a => pure (g a)).map (fun t => (st, t)) := by
  cases F <;> rfl

theorem mapM_congr {α β : Type} (l : List α) (f g : α → Except Err β)
    (h : ∀ a ∈ l, f a = g a) : l.mapM f = l.mapM g := by
  rw [← List.mapM'_eq_mapM, ← List.mapM'_eq_mapM]
  induction l with
  | nil => rfl
  | cons x t ih =>
    simp only [List.mapM']
    rw [h x (List.mem_cons_self x t), ih (fun a ha => h a (List.mem_cons_of_mem x ha))]

theorem foldl_accT {α β : Type} (l : List α) (st0 : AState)
    (fT : List β × AState → α → Except Err (List β × AState))
    (f : α → Except Err β)
    (hstep : ∀ (acc0 : List β) a,
      fT (acc0, st0) a = (f a).map (fun b => (acc0 ++ [b], st0))) :
    ∀ acc0 : List β, l.foldlM fT (acc0, st0) =
      (l.mapM f).map (fun vals => (acc0 ++ vals, st0)) := by
  induction l with
  | nil =>
    intro acc0
    rw [List.foldlM_nil, ← List.mapM'_eq_mapM]
    simp [List.mapM', epure_ok, emap_ok]
  | cons x t ih =>
    intro acc0
    rw [List.foldlM_cons, hstep, ← List.mapM'_eq_mapM]
    cases hf : f x with
    | error e => simp [List.mapM', hf, ebind_err, emap_err]
    | ok b =>
      simp only [List.mapM', hf, emap_ok, ebind_ok, List.mapM'_eq_mapM]
      rw [ih (acc0 ++ [b])]
      cases hm : t.mapM f with
      | error e => simp [ebind_err, emap_err]
      | ok vals =>
        simp only [emap_ok, ebind_ok, epure_ok]
        simp

theorem foldlM_pairT {α β : Type} (l : List α) (st0 : AState)
    (fT : AState × β → α → Except Err (AState × β))
    (f : β → α → Except Err β)
    (hstep : ∀ b a, fT (st0, b) a = (f b a).map (fun b2 => (st0, b2))) :
    ∀ init, l.foldlM fT (st0, init) = (l.foldlM f init).map (fun b => (st0, b)) := by
  induction l with
  | nil => intro init; rfl
  | cons x t ih =>
    intro init
    rw [List.foldlM_cons, List.foldlM_cons, hstep]
    cases hf : f init x with
    | error e => rfl
    | ok b2 =>
      rw [emap_ok, ebind_ok, ebind_ok]
      exact ih b2

theorem LoopEngine.alive_neighboursT_eq (cell : Coord) (state : AState) :
    LoopEngine.alive_neighboursT cell state =
      (LoopEngine.alive_neighbours cell state).map (fun n => (n, state)) := by
  unfold LoopEngine.alive_neighboursT LoopEngine.alive_neighbours
  cases hns : LoopEngine.neighbours cell state.width state.height with
  | error e => rfl
  | ok ns =>
    rw [ebind_ok, ebind_ok]
    rw [foldl_accT ns state _ (fun c => state.getItem c) (fun acc0 c => by
      show state.getItemT c >>= _ = _
      cases hg : state.getItem c with
      | error e => simp [AState.getItemT, hg, emap_err, ebind_err]
      | ok b => simp [AState.getItemT, hg, emap_ok, ebind_ok, epure_ok]) []]
    rw [emap_bind]
    cases hm : ns.mapM (fun c => state.getItem c) with
    | error e => rfl
    | ok vals => simp [ebind_ok, emap_ok, epure_ok]

theorem LoopEngine.next_cell_stateT_eq (cell : Coord) (state : AState) :
    LoopEngine.next_cell_stateT cell state =
      (LoopEngine.next_cell_state cell state).map (fun b => (b, state)) := by
  unfold LoopEngine.next_cell_stateT LoopEngine.next_cell_state
  rw [LoopEngine.alive_neighboursT_eq]
  cases han : LoopEngine.alive_neighbours cell state with
  | error e => rfl
  | ok an =>
    rw [emap_ok, ebind_ok, ebind_ok]
    show state.getItemT cell >>= _ = _
    cases hg : state.getItem cell with
    | error e => simp [AState.getItemT, hg, emap_err, ebind_err]
    | ok alive =>
      simp only [AState.getItemT, hg, emap_ok, ebind_ok]
      cases alive with
      | true =>
        by_cases h23 : an < 2 ∨ an > 3
        · simp [h23, epure_ok, emap_ok]
        · simp [h23, epure_ok, emap_ok]
      | false =>
        by_cases h3 : an = 3
        · simp [h3, epure_ok, emap_ok]
        · simp [h3, epure_ok, emap_ok]

theorem LoopEngine.next_stateT_eqL (state : AState) :
    LoopEngine.next_stateT state =
      (LoopEngine.next_state state).map (fun t => (state, t)) := by
  unfold LoopEngine.next_stateT LoopEngine.next_state
  cases hmk : DenseState.make state.width state.height with
  | error e => rfl
  | ok init =>
    rw [ebind_ok, ebind_ok]
    have houter := foldlM_pairT (List.range state.height.toNat) state
      (fun (acc : AState × DenseState) (y : Nat) =>
        (List.range state.width.toNat).foldlM
          (fun (acc2 : AState × DenseState) (x : Nat) => do
            let (v, st) ← LoopEngine.next_cell_stateT ((x : Int), (y : Int)) acc2.1
            let next ← acc2.2.setItem ((x : Int), (y : Int)) v
            return (st, next)) acc)
      (fun (acc : DenseState) (y : Nat) =>
        (List.range state.width.toNat).foldlM
          (fun (acc2 : DenseState) (x : Nat) => do
            let v ← LoopEngine.next_cell_state ((x : Int), (y : Int)) state
            acc2.setItem ((x : Int), (y : Int)) v) acc)
      (fun b y => foldlM_pairT (List.range state.width.toNat) state _ _
        (fun b2 x => by
          show LoopEngine.next_cell_stateT ((x : Int), (y : Int)) state >>= _ = _
          rw [LoopEngine.next_cell_stateT_eq, emap_bind]
          cases hv : LoopEngine.next_cell_state ((x : Int), (y : Int)) state with
          | error e => rfl
          | ok v =>
            rw [ebind_ok]
            show (b2.setItem ((x : Int), (y : Int)) v >>= fun next =>
              pure (state, next)) = _
            cases hsi : b2.setItem ((x : Int), (y : Int)) v with
            | error e => simp [hsi, ebind_ok, ebind_err, emap_err]
            | ok next => simp [hsi, ebind_ok, emap_ok, epure_ok]) b)
      init
    rw [houter, emap_bind]
    cases hfold : (List.range state.height.toNat).foldlM
      (fun (acc : DenseState) (y : Nat) =>
        (List.range state.width.toNat).foldlM
          (fun (acc2 : DenseState) (x : Nat) => do
            let v ← LoopEngine.next_cell_state ((x : Int), (y : Int)) state
            acc2.setItem ((x : Int), (y : Int)) v) acc) init with
    | error e => rfl
    | ok d => rfl

theorem bind_pure_pair {α γ : Type} (F : Except Err α) (st : γ) :
    (F >>= fun a => pure ((st, a) : γ × α)) = F.map (fun a => (st, a)) := by
  cases F <;> rfl

theorem DenseState.from_stateT_eqD (other : AState) :
    DenseState.from_stateT other =
      (DenseState.from_state other).map (fun d => (d, other)) := by
  unfold DenseState.from_stateT DenseState.from_state
  cases hmk : DenseState.make other.width other.height with
  | error e => rfl
  | ok new =>
    rw [ebind_ok, ebind_ok]
    show (other.get_live_cells.foldlM (fun st c => st.setItem c true) new >>=
      fun result => pure (result, other)) = _
    cases hf : other.get_live_cells.foldlM (fun st c => st.setItem c true) new with
    | error e => rfl
    | ok result => rfl

theorem SparseState.from_stateT_eqS (other : AState) :
    SparseState.from_stateT other =
      (SparseState.from_state other).map (fun d => (d, other)) := by
  unfold SparseState.from_stateT SparseState.from_state
  cases hmk : SparseState.make other.width other.height with
  | error e => rfl
  | ok new =>
    rw [ebind_ok, ebind_ok]
    show (other.get_live_cells.foldlM (fun st c => st.setItem c true) new >>=
      fun result => pure (result, other)) = _
    cases hf : other.get_live_cells.foldlM (fun st c => st.setItem c true) new with
    | error e => rfl
    | ok result => rfl

theorem NumpyEngine.bodyT_eqN (d : DenseState) :
    NumpyEngine.bodyT (.dense d) =
      (NumpyEngine.next_state (.dense d)).map (fun t => ((AState.dense d), t)) := by
  unfold NumpyEngine.bodyT
  simp only [NumpyEngine.next_state]
  rw [show optimize_state (some .dense) (.dense d) = .ok (.dense d) from rfl, ebind_ok]
  have hinner : ∀ (y : Nat) (acc0 : List Int),
      (List.range (AState.dense d).width.toNat).foldlM
        (fun (acc2 : List Int × AState) (x : Nat) => do
          let (b, st) ← acc2.2.getItemT ((x : Int), (y : Int))
          return (acc2.1 ++ [if b then (1 : Int) else 0], st))
        (acc0, (.dense d : AState)) =
      ((List.range (AState.dense d).width.toNat).mapM (fun (x : Nat) =>
        ((AState.dense d).getItem ((x : Int), (y : Int))).map
          (fun b => if b then (1 : Int) else 0))).map
        (fun vals => (acc0 ++ vals, (.dense d : AState))) := by
    intro y acc0
    apply foldl_accT
    intro acc1 x
    show (AState.dense d).getItemT ((x : Int), (y : Int)) >>= _ = _
    cases hg : (AState.dense d).getItem ((x : Int), (y : Int)) with
    | error e => simp [AState.getItemT, hg, emap_err, ebind_err]
    | ok b => simp [AState.getItemT, hg, emap_ok, ebind_ok, epure_ok]
  have houter : (List.range (AState.dense d).height.toNat).foldlM
      (fun (acc : List (List Int) × AState) (y : Nat) => do
        let row ← (List.range (AState.dense d).width.toNat).foldlM
          (fun (acc2 : List Int × AState) (x : Nat) => do
            let (b, st) ← acc2.2.getItemT ((x : Int), (y : Int))
            return (acc2.1 ++ [if b then (1 : Int) else 0], st))
          (([] : List Int), acc.2)
        return (acc.1 ++ [row.1], row.2))
      (([] : List (List Int)), (.dense d : AState)) =
      ((List.range (AState.dense d).height.toNat).mapM (fun (y : Nat) =>
        (List.range (AState.dense d).width.toNat).mapM (fun (x : Nat) =>
          ((AState.dense d).getItem ((x : Int), (y : Int))).map
            (fun b => if b then (1 : Int) else 0)))).map
        (fun rows => ([] ++ rows, (.dense d : AState))) := by
    apply foldl_accT
    intro acc0 y
    show ((List.range (AState.dense d).width.toNat).foldlM
        (fun (acc2 : List Int × AState) (x : Nat) => do
          let (b, st) ← acc2.2.getItemT ((x : Int), (y : Int))
          return (acc2.1 ++ [if b then (1 : Int) else 0], st))
        (([] : List Int), (.dense d : AState)) >>=
      fun row => pure (acc0 ++ [row.1], row.2)) = _
    rw [hinner y []]
    rw [emap_bind]
    cases him : (List.range (AState.dense d).width.toNat).mapM (fun (x : Nat) =>
        ((AState.dense d).getItem ((x : Int), (y : Int))).map
          (fun b => if b then (1 : Int) else 0)) with
    | error e => rfl
    | ok vals => simp [ebind_ok, emap_ok, epure_ok]
  rw [houter, emap_bind]
  rw [← ebind_map_out]
  apply ebind_congr
  intro grid
  rw [← ebind_map_out]
  apply ebind_congr
  intro init
  rw [← bind_map_pair]
  rfl

theorem NumpyEngine.next_stateT_eqN (state : AState) :
    NumpyEngine.next_stateT state =
      (NumpyEngine.next_state state).map (fun t => (state, t)) := by
  cases state with
  | dense d => exact NumpyEngine.bodyT_eqN d
  | sparse sp =>
    show (DenseState.from_stateT (.sparse sp) >>= fun conv =>
      NumpyEngine.bodyT (.dense conv.1) >>= fun r => pure (conv.2, r.2)) = _
    rw [DenseState.from_stateT_eqD]
    cases hfs : DenseState.from_state (.sparse sp) with
    | error e =>
      simp only [emap_err, ebind_err]
      simp only [NumpyEngine.next_state]
      rw [show optimize_state (some .dense) (.sparse sp) =
        (DenseState.from_state (.sparse sp)).map AState.dense from rfl, hfs]
      rfl
    | ok dd =>
      rw [emap_ok, ebind_ok]
      show (NumpyEngine.bodyT (.dense dd) >>= fun r => pure ((.sparse sp : AState), r.2)) = _
      rw [NumpyEngine.bodyT_eqN dd, emap_bind]
      have hsame : NumpyEngine.next_state (.dense dd) = NumpyEngine.next_state (.sparse sp) := by
        simp only [NumpyEngine.next_state]
        rw [show optimize_state (some .dense) (.sparse sp) =
          (DenseState.from_state (.sparse sp)).map AState.dense from rfl, hfs]
        rfl
      rw [← bind_pure_pair, hsame]

theorem SparseEngine.bodyT_eqSp (sp : SparseState) :
    SparseEngine.bodyT (.sparse sp) =
      (SparseEngine.next_state (.sparse sp)).map (fun t => ((AState.sparse sp), t)) := by
  unfold SparseEngine.bodyT
  simp only [SparseEngine.next_state]
  rw [show optimize_state (some .sparse) (.sparse sp) = .ok (.sparse sp) from rfl,
    ebind_ok]
  rw [← ebind_map_out]
  apply ebind_congr
  intro init
  rw [← bind_map_pair]
  rfl

theorem SparseEngine.next_stateT_eqSp (state : AState) :
    SparseEngine.next_stateT state =
      (SparseEngine.next_state state).map (fun t => (state, t)) := by
  cases state with
  | sparse sp => exact SparseEngine.bodyT_eqSp sp
  | dense d =>
    show (SparseState.from_stateT (.dense d) >>= fun conv =>
      SparseEngine.bodyT (.sparse conv.1) >>= fun r => pure (conv.2, r.2)) = _
    rw [SparseState.from_stateT_eqS]
    cases hfs : SparseState.from_state (.dense d) with
    | error e =>
      simp only [emap_err, ebind_err]
      simp only [SparseEngine.next_state]
      rw [show optimize_state (some .sparse) (.dense d) =
        (SparseState.from_state (.dense d)).map AState.sparse from rfl, hfs]
      rfl
    | ok dd =>
      rw [emap_ok, ebind_ok]
      show (SparseEngine.bodyT (.sparse dd) >>= fun r => pure ((.dense d : AState), r.2)) = _
      rw [SparseEngine.bodyT_eqSp dd, emap_bind]
      have hsame : SparseEngine.next_state (.sparse dd) = SparseEngine.next_state (.dense d) := by
        simp only [SparseEngine.next_state]
        rw [show optimize_state (some .sparse) (.dense d) =
          (SparseState.from_state (.dense d)).map AState.sparse from rfl, hfs]
        rfl
      rw [← bind_pure_pair, hsame]

/-- C9: for every valid state and each of the three engines, next_state
(re-translated with the input object's state threaded through every
operation applied to it) succeeds, returns a produced state, and leaves
the input object's state exactly as it was before the call; in
particular the input keeps its width, height and live-cell set. -/
theorem engines_preserve_input (s : AState) (hs : s.Valid) :
    (∃ sf t, LoopEngine.next_stateT s = .ok (sf, t) ∧
      LoopEngine.next_state s = .ok t ∧ sf = s ∧
      sf.width = s.width ∧ sf.height = s.height ∧
      sf.get_live_cells = s.get_live_cells) ∧
    (∃ sf t, NumpyEngine.next_stateT s = .ok (sf, t) ∧
      NumpyEngine.next_state s = .ok t ∧ sf = s ∧
      sf.width = s.width ∧ sf.height = s.height ∧
      sf.get_live_cells = s.get_live_cells) ∧
    (∃ sf t, SparseEngine.next_stateT s = .ok (sf, t) ∧
      SparseEngine.next_state s = .ok t ∧ sf = s ∧
      sf.width = s.width ∧ sf.height = s.height ∧
      sf.get_live_cells = s.get_live_cells) := by
  obtain ⟨a, hoka, _⟩ := LoopEngine.next_state_okL s hs
  obtain ⟨b, hokb, _⟩ := NumpyEngine.next_state_okN s hs
  obtain ⟨c2, hokc, _⟩ := SparseEngine.next_state_okSp s hs
  refine ⟨⟨s, .dense a, ?_, hoka, rfl, rfl, rfl, rfl⟩,
    ⟨s, .dense b, ?_, hokb, rfl, rfl, rfl, rfl⟩,
    ⟨s, .sparse c2, ?_, hokc, rfl, rfl, rfl, rfl⟩⟩
  · rw [LoopEngine.next_stateT_eqL, hoka]
    rfl
  · rw [NumpyEngine.next_stateT_eqN, hokb]
    rfl
  · rw [SparseEngine.next_stateT_eqSp, hokc]
    rfl

/-- Witness for C9 at a concrete sparse input. -/
theorem engines_preserve_input_witness :
    (∃ sf t, LoopEngine.next_stateT (AState.sparse ⟨2, 2, [(0, 0)]⟩) = .ok (sf, t) ∧
      LoopEngine.next_state (AState.sparse ⟨2, 2, [(0, 0)]⟩) = .ok t ∧
      sf = AState.sparse ⟨2, 2, [(0, 0)]⟩ ∧
      sf.width = (AState.sparse ⟨2, 2, [(0, 0)]⟩).width ∧
      sf.height = (AState.sparse ⟨2, 2, [(0, 0)]⟩).height ∧
      sf.get_live_cells = (AState.sparse ⟨2, 2, [(0, 0)]⟩).get_live_cells) ∧
    (∃ sf t, NumpyEngine.next_stateT (AState.sparse ⟨2, 2, [(0, 0)]⟩) = .ok (sf, t) ∧
      NumpyEngine.next_state (AState.sparse ⟨2, 2, [(0, 0)]⟩) = .ok t ∧
      sf = AState.sparse ⟨2, 2, [(0, 0)]⟩ ∧
      sf.width = (AState.sparse ⟨2, 2, [(0, 0)]⟩).width ∧
      sf.height = (AState.sparse ⟨2, 2, [(0, 0)]⟩).height ∧
      sf.get_live_cells = (AState.sparse ⟨2, 2, [(0, 0)]⟩).get_live_cells) ∧
    (∃ sf t, SparseEngine.next_stateT (AState.sparse ⟨2, 2, [(0, 0)]⟩) = .ok (sf, t) ∧
      SparseEngine.next_state (AState.sparse ⟨2, 2, [(0, 0)]⟩) = .ok t ∧
      sf = AState.sparse ⟨2, 2, [(0, 0)]⟩ ∧
      sf.width = (AState.sparse ⟨2, 2, [(0, 0)]⟩).width ∧
      sf.height = (AState.sparse ⟨2, 2, [(0, 0)]⟩).height ∧
      sf.get_live_cells = (AState.sparse ⟨2, 2, [(0, 0)]⟩).get_live_cells) :=
  engines_preserve_input (AState.sparse ⟨2, 2, [(0, 0)]⟩) (by decide)

end Pycgol
